import Mathlib

/-!
Verification of the core components of the Code-Expert pipeline against its
source.  The Python source is shallowly embedded: JSON objects and directory
trees become association lists (first binding wins), external collaborators
(the embedding service, the faiss library, the agents, the build command,
`shutil.copy2`) become explicit oracles passed as arguments, and every
effectful function returns its observable result, together with a trace of
the external calls it makes where a claim is about the order of those calls.

Embedded here:
  * `lib/utils.py`              : `extract_function_body`, `backup_files`;
  * `embedding/core/faiss_selector.py`    : `find_relevant_fragments`;
  * `embedding/core/fragment_processor.py`: `_get_text_for_fragment_embedding`,
    `update_fragment_embeddings_async`;
  * `code_modifier/core/context_builder.py`: `assemble_expert_context`;
  * `code_modifier/core/workflow_steps.py` : `finalize_execution`;
  * `code_modifier/core/execution_loop.py` : `run_execution_loop`.

Numeric vectors (float32 in the source) are modelled as lists of rationals:
the properties proved about them are order-theoretic and are insensitive to
the choice of the ordered field.
-/

namespace CodeExpert

/-! ## Generic helpers: Python string truthiness and string operations -/

/-- Association-list lookup, first binding wins.  Models both a JSON object
(`dict.get`) and a file tree (path to file content). -/
def lookupA {β : Type} : List (String × β) → String → Option β
  | [], _ => none
  | (k, v) :: rest, key => if k = key then some v else lookupA rest key

/-- Python truthiness of a string: `bool(s)` is `True` iff `s` is nonempty. -/
def strTruthy (s : String) : Bool := !s.data.isEmpty

/-- Python truthiness of `dict.get(key)`: `None` and the empty string are falsy. -/
def optStrTruthy : Option String → Bool
  | none => false
  | some s => strTruthy s

/-- Python `not x` for an optional string (`None` and `""` are falsy). -/
def optFalsy (o : Option String) : Bool := !optStrTruthy o

/-- Python `s.strip() == ""`: the string holds only whitespace. -/
def stripIsEmpty (s : String) : Bool := s.data.all Char.isWhitespace

/-- Python `s.strip()`: whitespace removed from both ends. -/
def pyStrip (s : String) : String :=
  String.mk (((s.data.dropWhile Char.isWhitespace).reverse.dropWhile Char.isWhitespace).reverse)

/-- Python `len(s)` (code points). -/
def pyLen (s : String) : Nat := s.data.length

/-- Python `s[:n]` (code-point prefix). -/
def pyTake (s : String) (n : Nat) : String := String.mk (s.data.take n)

/-- Python `s.capitalize()`: first character uppercased, the rest lowercased. -/
def pyCapitalize (s : String) : String :=
  match s.data with
  | [] => ""
  | c :: rest => String.mk (c.toUpper :: rest.map Char.toLower)

/-- Python `sep.join` over a list of strings. -/
def joinSep (sep : String) : List String → String
  | [] => ""
  | [s] => s
  | s :: rest => s ++ sep ++ joinSep sep rest

/-- Python `".." in path` (substring test, used by `backup_files` to skip
suspicious relative paths). -/
def hasDotDot : List Char → Bool
  | [] => false
  | [_] => false
  | c :: d :: rest => (c = '.' && d = '.') || hasDotDot (d :: rest)

/-- Python `s.replace(c, rep)` for a one-character pattern (the only shape
`backup_files` uses). -/
def replaceChar (c : Char) (rep : List Char) : List Char → List Char
  | [] => []
  | d :: rest =>
    if d = c then rep ++ replaceChar c rep rest else d :: replaceChar c rep rest

/-- Python `text.splitlines(keepends=True)` for LF-terminated text (the other
terminators Python recognises play no role in the claims). -/
def splitKeepNl : List Char → List (List Char)
  | [] => []
  | c :: rest =>
    if c = '\n' then [c] :: splitKeepNl rest
    else
      match splitKeepNl rest with
      | [] => [[c]]
      | l :: ls => (c :: l) :: ls

/-- Line splitting on a string, keeping the terminators. -/
def splitLinesKeepEnds (s : String) : List String := (splitKeepNl s.data).map String.mk

/-! ## File-system model

A directory tree is an association list from workspace-relative POSIX path to
file content; a write prepends (the newest binding wins on lookup). -/

/-- A file tree: relative path to content. -/
abbrev FS := List (String × String)

/-- Reading a file: `some` content when the path is a file of the tree. -/
def readFile (fs : FS) (p : String) : Option String := lookupA fs p

/-- `shutil.copy2` / `write_text` into a tree (overwrite-or-create). -/
def writeFile (fs : FS) (p : String) (c : String) : FS := (p, c) :: fs

/-! ## `lib/utils.py`: `extract_function_body` (lines 685-710) -/

/-- `extract_function_body(filepath, start_line, end_line)`.  The `content`
argument is `none` when the file is missing (`filepath.is_file()` false),
otherwise the file's text.  Returns the 1-based inclusive line range as one
string when `0 <= start_line-1 < len(lines)` and `start_line-1 < end_line <=
len(lines)`, and `none` otherwise. -/
def extract_function_body (content : Option String) (start_line end_line : Int) : Option String :=
  match content with
  | none => none
  | some text =>
    let lines := splitLinesKeepEnds text
    let n : Int := (lines.length : Int)
    let start_idx := start_line - 1
    let end_idx := end_line
    if 0 ≤ start_idx ∧ start_idx < n ∧ start_idx < end_idx ∧ end_idx ≤ n then
      some (String.join ((lines.drop start_idx.toNat).take (end_idx - start_idx).toNat))
    else
      none

/-! ## `lib/utils.py`: `backup_files` (lines 466-514)

The source copies each existing source file into a single backup directory
under the mangled name `rel_path.replace('/', '_').replace('\\', '_')
.replace('.', '_dot_') + ".bak"`.  A per-file `shutil.copy2` failure is
logged and skipped (the loop continues); only the creation of the backup
directory itself can raise, which is modelled at the caller
(`finalize_execution`).  `copyOk` is the oracle for the per-file copy. -/

/-- The flattened backup file name `backup_files` derives from a relative path. -/
def bakName (relPath : String) : String :=
  String.mk (replaceChar '.' ("_dot_".data)
    (replaceChar '\\' ['_'] (replaceChar '/' ['_'] relPath.data))) ++ ".bak"

/-- `backup_files(relative_file_paths, backup_dir_path, source_base_dir)`:
the content of the backup directory it produces (mangled name to content).
Blank paths and paths holding `".."` are skipped, as are missing source
files and files whose individual copy fails.  (`Path(rel_path).as_posix()`
is the identity on the normalised POSIX-relative paths modelled here.) -/
def backup_files (relative_file_paths : List String) (source_base_dir : FS)
    (copyOk : String → Bool) : List (String × String) :=
  match relative_file_paths with
  | [] => []
  | rel_path :: rest =>
    if stripIsEmpty rel_path then backup_files rest source_base_dir copyOk
    else if hasDotDot rel_path.data then backup_files rest source_base_dir copyOk
    else
      match readFile source_base_dir rel_path with
      | some content =>
        if copyOk rel_path then
          (bakName rel_path, content) :: backup_files rest source_base_dir copyOk
        else backup_files rest source_base_dir copyOk
      | none => backup_files rest source_base_dir copyOk

/-! ## `code_modifier/core/workflow_steps.py`: `finalize_execution` (lines 381-462) -/

/-- The observable outcome of `finalize_execution`: its boolean return value,
the target project tree after the call, and the content of the timestamped
backup directory it created (empty when none was created). -/
structure FinalizeResult where
  success : Bool
  target : FS
  backup : List (String × String)
  deriving Repr, DecidableEq

/-- The final copy loop of `finalize_execution` (lines 433-452): for each
planned path, copy the workspace file over the target; a missing workspace
source or a failed copy sets the error flag and the loop continues. -/
def applyFiles (rel_paths : List String) (ws : FS) (target : FS)
    (copyOk : String → Bool) : FS × Bool :=
  match rel_paths with
  | [] => (target, false)
  | p :: rest =>
    match readFile ws p with
    | none =>
      let r := applyFiles rest ws target copyOk
      (r.1, true)
    | some content =>
      if copyOk p then applyFiles rest ws (writeFile target p content) copyOk
      else
        let r := applyFiles rest ws target copyOk
        (r.1, true)

/-- `finalize_execution(apply_plan_path, workspace_path, target_project_path)`.
The plan is modelled as its already-loaded `files_to_apply` list (a missing or
unreadable plan file returns `False` before touching anything and is not part
of the claims).  `backupMkdirOk` models the creation of the backup directory
(the only operation of `backup_files` that raises); `backupCopyOk` and
`finalCopyOk` model the per-file `shutil.copy2` calls.  An empty path list is
vacuously successful; `files_to_backup` keeps the planned paths that are files
of the target tree (the source's set comprehension is modelled as a filter:
the backup result is insensitive to order and duplicates, since each path
deterministically maps to one name-content pair); a raised backup error
aborts with `False` before any copy to the target. -/
def finalize_execution (files_to_apply : List String) (workspace_project : FS)
    (target_project : FS) (backupMkdirOk : Bool)
    (backupCopyOk finalCopyOk : String → Bool) : FinalizeResult :=
  if files_to_apply.isEmpty then ⟨true, target_project, []⟩
  else
    let files_to_backup := files_to_apply.filter (fun p => (readFile target_project p).isSome)
    if files_to_backup.isEmpty then
      let r := applyFiles files_to_apply workspace_project target_project finalCopyOk
      ⟨!r.2, r.1, []⟩
    else if backupMkdirOk then
      let bak := backup_files files_to_backup target_project backupCopyOk
      let r := applyFiles files_to_apply workspace_project target_project finalCopyOk
      ⟨!r.2, r.1, bak⟩
    else ⟨false, target_project, []⟩

/-! ## `embedding/core/faiss_selector.py`: `find_relevant_fragments` (lines 185-274)

The in-memory index cache is modelled as the function's `index` argument: the
list of (fragment id, vector) pairs in insertion order, exactly what
`_load_embeddings_and_build_index` builds (`valid_fragment_ids_for_index`
zipped with the stacked vectors; `_internal_index_to_id_map_cache` maps the
position to the id).  The query embedding, produced by the external
`embedder_client`, is `none` when that call fails. -/

/-- Squared Euclidean distance, the metric of `faiss.IndexFlatL2`. -/
def sqDist (q v : List Rat) : Rat :=
  (List.zipWith (fun a b => (a - b) * (a - b)) q v).sum

/-- Comparison of (internal index, distance) pairs by distance. -/
def distLE (a b : Nat × Rat) : Prop := a.2 ≤ b.2

instance : DecidableRel distLE := fun a b => inferInstanceAs (Decidable (a.2 ≤ b.2))

instance : IsTotal (Nat × Rat) distLE := ⟨fun a b => le_total a.2 b.2⟩

instance : IsTrans (Nat × Rat) distLE := ⟨fun _ _ _ h h2 => le_trans h h2⟩

/-- Model of `faiss.IndexFlatL2.search` with one query vector and `k ≥ 1`:
the `k` nearest stored vectors as (internal index, squared L2 distance)
pairs, in ascending distance order.  (faiss throws unless `k > 0`; the
caller models that path separately.) -/
def faissSearch (vecs : List (List Rat)) (q : List Rat) (k : Nat) : List (Nat × Rat) :=
  (List.insertionSort distLE (vecs.enum.map (fun iv => (iv.1, sqDist q iv.2)))).take k

/-- The result-processing loop of `find_relevant_fragments` (lines 240-269):
map each internal index back to its fragment id (an unmapped or falsy —
missing or empty — id is logged and skipped), drop any neighbor whose distance exceeds the threshold, and
append id and score in lockstep (modelled as a list of pairs). -/
def filterByThreshold (idMap : List String) (similarity_threshold : Option Rat) :
    List (Nat × Rat) → List (String × Rat)
  | [] => []
  | (i, d) :: rest =>
    match idMap.get? i with
    | none => filterByThreshold idMap similarity_threshold rest
    | some fragment_id =>
      if strTruthy fragment_id then
        match similarity_threshold with
        | some t =>
          if t < d then filterByThreshold idMap similarity_threshold rest
          else (fragment_id, d) :: filterByThreshold idMap similarity_threshold rest
        | none => (fragment_id, d) :: filterByThreshold idMap similarity_threshold rest
      else filterByThreshold idMap similarity_threshold rest

/-- The triple `find_relevant_fragments` returns: ranked fragment ids, their
squared-L2 distances, and the optional error message. -/
structure SelectorResult where
  relevant_ids : List String
  similarity_scores : List Rat
  error : Option String
  deriving Repr, DecidableEq

/-- `find_relevant_fragments(user_request, top_k, similarity_threshold)`.
`index` is the built faiss index with its id mapping; `query_embedding` is
the embedding of `user_request` (`none` when the embedding call fails).  The
source embeds the query first, then refuses an empty index, clamps `k` to
`min(top_k, ntotal)`, refuses `k = 0`, and lets faiss raise on a negative
`k` (caught and turned into an error return). -/
def find_relevant_fragments (index : List (String × List Rat))
    (query_embedding : Option (List Rat)) (top_k : Int)
    (similarity_threshold : Option Rat) : SelectorResult :=
  match query_embedding with
  | none => ⟨[], [], some "Erreur lors de l'embedding de la requête."⟩
  | some q =>
    if index.length = 0 then ⟨[], [], some "Index FAISS vide, impossible de rechercher."⟩
    else
      let actual_k_for_search : Int := min top_k (index.length : Int)
      if actual_k_for_search = 0 then ⟨[], [], some "Aucun voisin à rechercher (k=0)."⟩
      else if actual_k_for_search < 0 then ⟨[], [], some "Erreur de recherche FAISS."⟩
      else
        let results := faissSearch (index.map Prod.snd) q actual_k_for_search.toNat
        let pairs := filterByThreshold (index.map Prod.fst) similarity_threshold results
        ⟨pairs.map Prod.fst, pairs.map Prod.snd, none⟩

/-! ## Fragment metadata (the entries of `fragments_manifest.json`)

One structure holds every manifest field the embedded functions read;
a field a concrete JSON object lacks is `none` (Python `dict.get`). -/

/-- A fragment's manifest entry. -/
structure FragmentInfo where
  code_digest : Option String := none
  identifier : Option String := none
  fragment_type : Option String := none
  package_name : Option String := none
  signature : Option String := none
  definition : Option String := none
  docstring : Option String := none
  actual_source_path : Option String := none
  is_templ_source : Bool := false
  original_path : Option String := none
  start_line : Option Int := none
  end_line : Option Int := none
  deriving Repr, DecidableEq

/-! ## `embedding/core/fragment_processor.py` (lines 56-271) -/

/-- `_get_text_for_fragment_embedding(fragment_info, fragment_id_for_log)`
with the configured `MAX_TEXT_LENGTH_FOR_EMBEDDING` as `maxTextLength`:
the text representation of a fragment, each field independently capped
(`maxTextLength // 3` for signature and definition, `maxTextLength` for the
docstring), joined by `". "`, with a minimal fallback when blank. -/
def _get_text_for_fragment_embedding (fragment_info : FragmentInfo)
    (fragment_id_for_log : String) (maxTextLength : Nat) : String :=
  let max_len_for_field := maxTextLength
  let max_len_meta := maxTextLength / 3
  let name_part : String :=
    match optStrTruthy fragment_info.fragment_type, optStrTruthy fragment_info.identifier with
    | true, true =>
      pyCapitalize (fragment_info.fragment_type.getD "") ++ " Name: " ++
        fragment_info.identifier.getD ""
    | false, true => "Identifier: " ++ fragment_info.identifier.getD ""
    | _, false =>
      "Fragment Type: " ++
        (if optStrTruthy fragment_info.fragment_type then fragment_info.fragment_type.getD ""
         else "UnknownType")
  let package_parts : List String :=
    if optStrTruthy fragment_info.package_name then
      ["Package: " ++ fragment_info.package_name.getD ""] else []
  let signature_parts : List String :=
    if optStrTruthy fragment_info.signature then
      let signature := fragment_info.signature.getD ""
      let sig_text :=
        if max_len_meta < pyLen signature then pyTake signature max_len_meta ++ "..."
        else signature
      ["Signature: " ++ sig_text]
    else []
  let definition_parts : List String :=
    if optStrTruthy fragment_info.definition then
      let definition := fragment_info.definition.getD ""
      let def_text :=
        if max_len_meta < pyLen definition then pyTake definition max_len_meta ++ "..."
        else definition
      ["Definition: " ++ def_text]
    else []
  let doc_parts : List String :=
    if optStrTruthy fragment_info.docstring ∧ ¬stripIsEmpty (fragment_info.docstring.getD "") then
      let doc0 := pyStrip (fragment_info.docstring.getD "")
      let doc_to_embed :=
        if max_len_for_field < pyLen doc0 then pyTake doc0 max_len_for_field ++ "..."
        else doc0
      ["Documentation: " ++ doc_to_embed]
    else []
  let parts := [name_part] ++ package_parts ++ signature_parts ++ definition_parts ++ doc_parts
  let final_text := joinSep ". " (parts.filter strTruthy)
  if stripIsEmpty final_text then
    (if optStrTruthy fragment_info.fragment_type then fragment_info.fragment_type.getD ""
     else "Fragment") ++ ": " ++
      (if optStrTruthy fragment_info.identifier then fragment_info.identifier.getD ""
       else fragment_id_for_log)
  else final_text

/-- One entry of the on-disk embedding store `fragment_embeddings.json`:
`{"embedding": [...], "code_digest": ...}`.  A malformed entry with a missing
or empty vector is the empty list (Python truthiness treats both alike). -/
structure EmbRecord where
  embedding : List Rat
  code_digest : Option String
  deriving Repr, DecidableEq

/-- The reuse test of `update_fragment_embeddings_async` (lines 197-200): a
prior record exists, its stored digest equals the fragment's current digest,
and its vector is present (truthy). -/
def reusableEntry (old_embeddings_data : List (String × EmbRecord)) (frag_id : String)
    (current_code_digest : Option String) : Option EmbRecord :=
  match lookupA old_embeddings_data frag_id with
  | none => none
  | some old_entry =>
    if old_entry.code_digest = current_code_digest ∧ ¬old_entry.embedding.isEmpty then
      some old_entry
    else none

/-- What happened to the on-disk store `fragment_embeddings.json`. -/
inductive StoreOutcome where
  | written (store : List (String × EmbRecord))
  | deleted
  | unchanged
  deriving Repr, DecidableEq

/-- The cache-hit path of the per-fragment loop (lines 197-202): when the
fragment's prior record is reusable, it is copied forward unchanged, keyed
by the fragment id. -/
def reusedRecord (old_embeddings_data : List (String × EmbRecord))
    (fi : String × FragmentInfo) : Option (String × EmbRecord) :=
  (reusableEntry old_embeddings_data fi.1 fi.2.code_digest).map (fun e => (fi.1, e))

/-- The regeneration path of the per-fragment loop (lines 203-214 and the
gathered task results of lines 219-250): a fragment with no reusable prior
record gets its text representation embedded; a blank text, a failed call or
an empty vector leaves the fragment out of the updated store; a successful
call stores the new vector tagged with the fragment's current digest. -/
def regeneratedRecord (old_embeddings_data : List (String × EmbRecord))
    (embedder : String → Option (List Rat)) (maxTextLength : Nat)
    (fi : String × FragmentInfo) : Option (String × EmbRecord) :=
  if (reusableEntry old_embeddings_data fi.1 fi.2.code_digest).isSome then none
  else if stripIsEmpty (_get_text_for_fragment_embedding fi.2 fi.1 maxTextLength) then none
  else
    match embedder (_get_text_for_fragment_embedding fi.2 fi.1 maxTextLength) with
    | some v => if v.isEmpty then none else some (fi.1, EmbRecord.mk v fi.2.code_digest)
    | none => none

/-- `update_fragment_embeddings_async()` (lines 134-271).  The manifest and
prior store are the already-loaded inputs (a missing or corrupt store file is
loaded as the empty store, lines 170-184; a missing or unreadable manifest
returns `False` before the part modelled here).  `embedder` is the external
embedding service: text to optional vector, `none` or an empty vector being a
failed call.  An empty manifest deletes the store file and succeeds; each
fragment either reuses its prior record (digest match, vector present) or is
re-embedded and stored tagged with its current digest; fragments whose call
fails are omitted; ids absent from the manifest are dropped; a run that
produced an empty store from a nonempty manifest returns `False` without
writing. -/
def update_fragment_embeddings_async (current_fragments : List (String × FragmentInfo))
    (old_embeddings_data : List (String × EmbRecord))
    (embedder : String → Option (List Rat)) (maxTextLength : Nat) :
    Bool × StoreOutcome :=
  if current_fragments.isEmpty then (true, .deleted)
  else
    let updated_embeddings_data :=
      current_fragments.filterMap (reusedRecord old_embeddings_data) ++
        current_fragments.filterMap (regeneratedRecord old_embeddings_data embedder maxTextLength)
    if updated_embeddings_data.isEmpty then (false, .unchanged)
    else (true, .written updated_embeddings_data)

/-! ## `code_modifier/core/context_builder.py`: `assemble_expert_context` (lines 181-337) -/

/-- One entry of the context's `target_fragments_with_code` list.  The
metadata fields the source copies verbatim from the manifest entry
(package, identifier, signature, ...) are recoverable from the manifest by
`fragment_id` and are not duplicated here. -/
structure ExpertTargetEntry where
  fragment_id : String
  path_to_modify : String
  is_templ_source : Bool
  current_code_block : String
  deriving Repr, DecidableEq

/-- The context object handed to an executor agent.  The two context lists
keep the fragment ids included under `context_definitions.types` and
`context_definitions.functions_or_methods` (again, their copied metadata is
the manifest entry of the id). -/
structure ExpertContext where
  step_instructions : String
  previous_build_error : Option String
  target_fragments_with_code : List ExpertTargetEntry
  context_type_ids : List String
  context_function_or_method_ids : List String
  deriving Repr, DecidableEq

/-- A plan step as `assemble_expert_context` reads it: target ids, context
ids, instructions.  (A non-list `context_fragment_ids` is treated as empty
by the source and a non-list `target_fragment_ids` fails assembly; the model
types both as lists.) -/
structure PlanStep where
  target_fragment_ids : List String
  context_fragment_ids : List String
  instructions : String := ""
  deriving Repr, DecidableEq

/-- The code block read for one target fragment (lines 257-264): the whole
workspace file for a templ source, else the manifest's line range extracted
from it (`none` when the lines are missing, not integers, or invalid). -/
def targetCodeBlock (fragment_info : FragmentInfo) (content : String) : Option String :=
  if fragment_info.is_templ_source then some content
  else
    match fragment_info.start_line, fragment_info.end_line with
    | some s, some e => extract_function_body (some content) s e
    | _, _ => none

/-- The target-fragment loop (lines 227-292).  Each target id must be in the
manifest, carry a truthy `actual_source_path`, carry a truthy
`original_path` when it is not a templ source, name a readable workspace
file, and (for a non-templ fragment) carry integer lines from which
`extract_function_body` succeeds; the first violation aborts with no context
(`none`), returning the paths of the targets already processed.  On success
every processed path is returned alongside the entries. -/
def assembleTargetFragments (manifest : List (String × FragmentInfo)) (workspace : FS) :
    List String → Option (List ExpertTargetEntry) × List String
  | [] => (some [], [])
  | frag_id :: rest =>
    match lookupA manifest frag_id with
    | none => (none, [])
    | some fragment_info =>
      if !optStrTruthy fragment_info.actual_source_path then (none, [])
      else if !fragment_info.is_templ_source && !optStrTruthy fragment_info.original_path then
        (none, [])
      else
        let p := fragment_info.actual_source_path.getD ""
        match readFile workspace p with
        | none => (none, [])
        | some content =>
          match targetCodeBlock fragment_info content with
          | none => (none, [])
          | some code =>
            let r := assembleTargetFragments manifest workspace rest
            (r.1.map (fun entries =>
               ExpertTargetEntry.mk frag_id p fragment_info.is_templ_source code :: entries),
             p :: r.2)

/-- The context-fragment loop (lines 295-319): an id missing from the
manifest is skipped with a warning; a `type` fragment with a truthy
definition goes to `types`; a `function` or `method` fragment with a truthy
signature goes to `functions_or_methods`; everything else is dropped. -/
def assembleContextDefinitions (manifest : List (String × FragmentInfo)) :
    List String → List String × List String
  | [] => ([], [])
  | frag_id :: rest =>
    let r := assembleContextDefinitions manifest rest
    match lookupA manifest frag_id with
    | none => r
    | some info =>
      if info.fragment_type = some "type" ∧ optStrTruthy info.definition then
        (frag_id :: r.1, r.2)
      else if (info.fragment_type = some "function" ∨ info.fragment_type = some "method") ∧
          optStrTruthy info.signature then
        (r.1, frag_id :: r.2)
      else r

/-- `assemble_expert_context(step_data, full_manifest_data,
current_project_state_dir, previous_build_error)`: the optional context and
the set of workspace-relative paths the step targets (returned even when
assembly fails part-way). -/
def assemble_expert_context (step_data : PlanStep)
    (full_manifest_fragments : List (String × FragmentInfo))
    (current_project_state_dir : FS) (previous_build_error : Option String) :
    Option ExpertContext × List String :=
  let t := assembleTargetFragments full_manifest_fragments current_project_state_dir
    step_data.target_fragment_ids
  match t.1 with
  | none => (none, t.2)
  | some targets =>
    let c := assembleContextDefinitions full_manifest_fragments step_data.context_fragment_ids
    (some (ExpertContext.mk step_data.instructions previous_build_error targets c.1 c.2), t.2)

/-- The conditions under which one target fragment id makes
`assemble_expert_context` fail, read off the same checks in the same order
as `assembleTargetFragments`. -/
def targetHardFail (manifest : List (String × FragmentInfo)) (workspace : FS)
    (frag_id : String) : Bool :=
  match lookupA manifest frag_id with
  | none => true
  | some info =>
    if !optStrTruthy info.actual_source_path then true
    else if !info.is_templ_source && !optStrTruthy info.original_path then true
    else
      match readFile workspace (info.actual_source_path.getD "") with
      | none => true
      | some content => (targetCodeBlock info content).isNone

/-! ## `code_modifier/core/execution_loop.py`: `run_execution_loop` (lines 184-284)

`execute_single_agent_step` drives an external agent and writes its
mutations into the workspace; to the loop it is a call returning (success,
set of touched workspace-relative paths) that may depend on the attempt, the
step and the `previous_build_error` it receives — the `StepOracle`.  The
build command is likewise an oracle from the attempt number to (success,
captured output).  Each external call is recorded as a `LoopEvent` so that
claims about what ran, in which order and with which error context are
statable. -/

/-- The plan-step fields the loop itself reads (`step_id`, `agent`,
`expert`), used to build the step-failure message of lines 234-238. -/
structure StepData where
  step_id : Option String := none
  agent : Option String := none
  expert : Option String := none
  deriving Repr, DecidableEq

/-- Python `step.get('agent') or step.get('expert', 'Agent Inconnu')`. -/
def failedAgentName (s : StepData) : String :=
  match s.agent with
  | some a => if strTruthy a then a else s.expert.getD "Agent Inconnu"
  | none => s.expert.getD "Agent Inconnu"

/-- The error context recorded when a step fails and no previous error is
held (lines 234-238 of the source). -/
def stepFailureMessage (s : StepData) : String :=
  "Échec critique de l'étape " ++ s.step_id.getD "ID Inconnu" ++ " par l'agent '" ++
    failedAgentName s ++ "'. Consultez les logs de l'agent pour les détails."

/-- An external call the loop makes: a step execution (with the
`previous_build_error` it was handed and what it returned) or a build
command run. -/
inductive LoopEvent where
  | stepRun (attempt : Nat) (step_index : Nat) (previous_error : Option String)
      (ok : Bool) (touched : List String)
  | buildRun (attempt : Nat) (ok : Bool) (output : String)
  deriving Repr, DecidableEq

/-- The attempt number an event belongs to. -/
def LoopEvent.attemptNo : LoopEvent → Nat
  | .stepRun a _ _ _ _ => a
  | .buildRun a _ _ => a

/-- The touched paths an event reported (a build reports none). -/
def LoopEvent.touched : LoopEvent → List String
  | .stepRun _ _ _ _ fs => fs
  | .buildRun _ _ _ => []

/-- `execute_single_agent_step` as the loop sees it:
(attempt, step index, previous_build_error) to (success, touched paths). -/
abbrev StepOracle := Nat → Nat → Option String → Bool × List String

/-- `shared_utils.run_build_command` as the loop sees it:
attempt number to (success, captured output). -/
abbrev BuildOracle := Nat → Bool × String

/-- What one pass over the plan steps (lines 217-239) produces. -/
structure StepsResult where
  all_ok : Bool
  last_error : Option String
  touched : List String
  trace : List LoopEvent
  deriving Repr, DecidableEq

/-- The inner `for` over the plan steps of one attempt: every step receives
the same `previous_build_error`; the touched paths of every executed step
are accumulated (also for the failing step); the first failure breaks out,
recording the step-failure message as the error only when no previous error
is held (Python truthiness: `None` and `""` count as not held). -/
def runPlanSteps (stepO : StepOracle) (attemptNo : Nat) (last_error : Option String) :
    List StepData → Nat → StepsResult
  | [], _ => ⟨true, last_error, [], []⟩
  | s :: rest, idx =>
    let r0 := stepO attemptNo idx last_error
    if r0.1 then
      let r := runPlanSteps stepO attemptNo last_error rest (idx + 1)
      ⟨r.all_ok, r.last_error, r0.2 ++ r.touched,
        .stepRun attemptNo idx last_error true r0.2 :: r.trace⟩
    else
      ⟨false, (if optFalsy last_error then some (stepFailureMessage s) else last_error),
        r0.2, [.stepRun attemptNo idx last_error false r0.2]⟩

/-- What `run_execution_loop` returns (success flag, last error, union of
touched paths), together with the trace of external calls. -/
structure LoopResult where
  success : Bool
  last_error : Option String
  modified_files : List String
  trace : List LoopEvent
  deriving Repr, DecidableEq

/-- The `while build_attempt_number < max_retries` loop, by the number of
attempts still allowed.  A failed attempt's error context carries over; a
failed build stores its output as the next context; a successful build ends
the loop with success and clears the error; running out of attempts ends it
with failure and the last context. -/
def runLoopAux (plan_steps : List StepData) (stepO : StepOracle) (buildO : BuildOracle) :
    Nat → Nat → Option String → List String → LoopResult
  | 0, _, last_error, acc => ⟨false, last_error, acc, []⟩
  | remaining + 1, attemptNo, last_error, acc =>
    let sr := runPlanSteps stepO attemptNo last_error plan_steps 0
    let acc2 := acc ++ sr.touched
    if sr.all_ok then
      let b := buildO attemptNo
      if b.1 then ⟨true, none, acc2, sr.trace ++ [.buildRun attemptNo true b.2]⟩
      else
        let r := runLoopAux plan_steps stepO buildO remaining (attemptNo + 1) (some b.2) acc2
        ⟨r.success, r.last_error, r.modified_files,
          sr.trace ++ .buildRun attemptNo false b.2 :: r.trace⟩
    else
      let r := runLoopAux plan_steps stepO buildO remaining (attemptNo + 1) sr.last_error acc2
      ⟨r.success, r.last_error, r.modified_files, sr.trace ++ r.trace⟩

/-- `run_execution_loop(workflow_plan, full_manifest_data,
current_project_state_dir, max_retries)`.  An empty plan is an immediate
success with nothing run; otherwise the attempt loop runs, entered zero
times when `max_retries <= 0`. -/
def run_execution_loop (plan_steps : List StepData) (stepO : StepOracle)
    (buildO : BuildOracle) (max_retries : Int) : LoopResult :=
  if plan_steps.isEmpty then ⟨true, none, [], []⟩
  else runLoopAux plan_steps stepO buildO max_retries.toNat 1 none []

/-! ## Lemmas about one pass over the plan steps -/

theorem runPlanSteps_nil (stepO : StepOracle) (n : Nat) (le : Option String) (idx : Nat) :
    runPlanSteps stepO n le [] idx = ⟨true, le, [], []⟩ := rfl

theorem runPlanSteps_cons_ok {stepO : StepOracle} {n : Nat} {le : Option String}
    {s : StepData} {rest : List StepData} {idx : Nat} (h : (stepO n idx le).1 = true) :
    runPlanSteps stepO n le (s :: rest) idx =
      ⟨(runPlanSteps stepO n le rest (idx + 1)).all_ok,
        (runPlanSteps stepO n le rest (idx + 1)).last_error,
        (stepO n idx le).2 ++ (runPlanSteps stepO n le rest (idx + 1)).touched,
        .stepRun n idx le true (stepO n idx le).2 ::
          (runPlanSteps stepO n le rest (idx + 1)).trace⟩ := by
  simp [runPlanSteps, h]

theorem runPlanSteps_cons_fail {stepO : StepOracle} {n : Nat} {le : Option String}
    {s : StepData} {rest : List StepData} {idx : Nat} (h : (stepO n idx le).1 = false) :
    runPlanSteps stepO n le (s :: rest) idx =
      ⟨false, (if optFalsy le then some (stepFailureMessage s) else le),
        (stepO n idx le).2, [.stepRun n idx le false (stepO n idx le).2]⟩ := by
  simp [runPlanSteps, h]

theorem runPlanSteps_trace_shape (stepO : StepOracle) (n : Nat) (le : Option String)
    (l : List StepData) (idx : Nat) :
    ∀ e ∈ (runPlanSteps stepO n le l idx).trace,
      ∃ j ok fs, e = .stepRun n j le ok fs ∧ idx ≤ j := by
  induction l generalizing idx with
  | nil => intro e he; simp [runPlanSteps] at he
  | cons s rest ih =>
    intro e he
    cases hc : (stepO n idx le).1 with
    | true =>
      rw [runPlanSteps_cons_ok hc] at he
      simp only [List.mem_cons] at he
      rcases he with rfl | he
      · exact ⟨idx, true, _, rfl, Nat.le_refl idx⟩
      · obtain ⟨j, ok, fs, rfl, hj⟩ := ih (idx + 1) e he
        exact ⟨j, ok, fs, rfl, Nat.le_of_succ_le hj⟩
    | false =>
      rw [runPlanSteps_cons_fail hc] at he
      simp only [List.mem_singleton] at he
      exact ⟨idx, false, _, he, Nat.le_refl idx⟩

theorem runPlanSteps_fail_last (stepO : StepOracle) (n : Nat) (le : Option String)
    (l : List StepData) (idx : Nat) {a i : Nat} {p : Option String} {ps : List String}
    (hf : LoopEvent.stepRun a i p false ps ∈ (runPlanSteps stepO n le l idx).trace) :
    ∀ a' j p' b fs, LoopEvent.stepRun a' j p' b fs ∈ (runPlanSteps stepO n le l idx).trace →
      j ≤ i := by
  induction l generalizing idx with
  | nil => simp [runPlanSteps] at hf
  | cons s rest ih =>
    intro a' j p' b fs he
    cases hc : (stepO n idx le).1 with
    | true =>
      rw [runPlanSteps_cons_ok hc] at hf he
      simp only [List.mem_cons] at hf he
      rcases hf with hf | hf
      · cases hf
      · rcases he with he | he
        · cases he
          obtain ⟨j', ok, fs', hshape, hj⟩ :=
            runPlanSteps_trace_shape stepO n le rest (idx + 1) _ hf
          cases hshape
          omega
        · exact ih (idx + 1) hf _ _ _ _ _ he
    | false =>
      rw [runPlanSteps_cons_fail hc] at hf he
      simp only [List.mem_singleton] at hf he
      cases hf; cases he
      exact Nat.le_refl _

theorem runPlanSteps_fail_props (stepO : StepOracle) (n : Nat) (le : Option String)
    (l : List StepData) (idx : Nat) {a i : Nat} {p : Option String} {ps : List String}
    (hf : LoopEvent.stepRun a i p false ps ∈ (runPlanSteps stepO n le l idx).trace) :
    (runPlanSteps stepO n le l idx).all_ok = false ∧
      ∃ s, l.get? (i - idx) = some s ∧
        (runPlanSteps stepO n le l idx).last_error =
          (if optFalsy le then some (stepFailureMessage s) else le) := by
  induction l generalizing idx with
  | nil => simp [runPlanSteps] at hf
  | cons s rest ih =>
    cases hc : (stepO n idx le).1 with
    | true =>
      rw [runPlanSteps_cons_ok hc] at hf ⊢
      simp only [List.mem_cons] at hf
      rcases hf with hf | hf
      · cases hf
      · obtain ⟨j', ok, fs', hshape, hj⟩ :=
          runPlanSteps_trace_shape stepO n le rest (idx + 1) _ hf
        cases hshape
        obtain ⟨hok, s', hget, herr⟩ := ih (idx + 1) hf
        refine ⟨hok, s', ?_, herr⟩
        have hidx : i - idx = (i - (idx + 1)) + 1 := by omega
        rw [hidx]
        simpa using hget
    | false =>
      rw [runPlanSteps_cons_fail hc] at hf ⊢
      simp only [List.mem_singleton] at hf
      cases hf
      exact ⟨rfl, s, by simp, rfl⟩

theorem runPlanSteps_ok_err (stepO : StepOracle) (n : Nat) (le : Option String)
    (l : List StepData) (idx : Nat)
    (h : (runPlanSteps stepO n le l idx).all_ok = true) :
    (runPlanSteps stepO n le l idx).last_error = le := by
  induction l generalizing idx with
  | nil => rfl
  | cons s rest ih =>
    cases hc : (stepO n idx le).1 with
    | true =>
      rw [runPlanSteps_cons_ok hc] at h ⊢
      exact ih (idx + 1) h
    | false =>
      rw [runPlanSteps_cons_fail hc] at h
      simp at h

theorem runPlanSteps_touched (stepO : StepOracle) (n : Nat) (le : Option String)
    (l : List StepData) (idx : Nat) (path : String) :
    path ∈ (runPlanSteps stepO n le l idx).touched ↔
      ∃ e ∈ (runPlanSteps stepO n le l idx).trace, path ∈ e.touched := by
  induction l generalizing idx with
  | nil => simp [runPlanSteps]
  | cons s rest ih =>
    cases hc : (stepO n idx le).1 with
    | true =>
      rw [runPlanSteps_cons_ok hc]
      simp only [List.mem_append, List.mem_cons, ih (idx + 1)]
      constructor
      · rintro (h | ⟨e, he, hp⟩)
        · exact ⟨_, Or.inl rfl, h⟩
        · exact ⟨e, Or.inr he, hp⟩
      · rintro ⟨e, rfl | he, hp⟩
        · exact Or.inl hp
        · exact Or.inr ⟨e, he, hp⟩
    | false =>
      rw [runPlanSteps_cons_fail hc]
      simp [LoopEvent.touched]

theorem runPlanSteps_trace_len (stepO : StepOracle) (n : Nat) (le : Option String)
    (l : List StepData) (idx : Nat) :
    (runPlanSteps stepO n le l idx).trace.length ≤ l.length := by
  induction l generalizing idx with
  | nil => simp [runPlanSteps]
  | cons s rest ih =>
    cases hc : (stepO n idx le).1 with
    | true =>
      rw [runPlanSteps_cons_ok hc]
      simpa using ih (idx + 1)
    | false =>
      rw [runPlanSteps_cons_fail hc]
      simp

/-! ## Lemmas about the attempt loop -/

theorem runLoopAux_zero (ps : List StepData) (stepO : StepOracle) (buildO : BuildOracle)
    (n : Nat) (le : Option String) (acc : List String) :
    runLoopAux ps stepO buildO 0 n le acc = ⟨false, le, acc, []⟩ := rfl

theorem runLoopAux_succ_stepsFail {ps : List StepData} {stepO : StepOracle}
    {buildO : BuildOracle} {r n : Nat} {le : Option String} {acc : List String}
    (h : (runPlanSteps stepO n le ps 0).all_ok = false) :
    runLoopAux ps stepO buildO (r + 1) n le acc =
      ⟨(runLoopAux ps stepO buildO r (n + 1) (runPlanSteps stepO n le ps 0).last_error
          (acc ++ (runPlanSteps stepO n le ps 0).touched)).success,
        (runLoopAux ps stepO buildO r (n + 1) (runPlanSteps stepO n le ps 0).last_error
          (acc ++ (runPlanSteps stepO n le ps 0).touched)).last_error,
        (runLoopAux ps stepO buildO r (n + 1) (runPlanSteps stepO n le ps 0).last_error
          (acc ++ (runPlanSteps stepO n le ps 0).touched)).modified_files,
        (runPlanSteps stepO n le ps 0).trace ++
          (runLoopAux ps stepO buildO r (n + 1) (runPlanSteps stepO n le ps 0).last_error
            (acc ++ (runPlanSteps stepO n le ps 0).touched)).trace⟩ := by
  simp [runLoopAux, h]

theorem runLoopAux_succ_buildOk {ps : List StepData} {stepO : StepOracle}
    {buildO : BuildOracle} {r n : Nat} {le : Option String} {acc : List String}
    (h : (runPlanSteps stepO n le ps 0).all_ok = true) (hb : (buildO n).1 = true) :
    runLoopAux ps stepO buildO (r + 1) n le acc =
      ⟨true, none, acc ++ (runPlanSteps stepO n le ps 0).touched,
        (runPlanSteps stepO n le ps 0).trace ++ [.buildRun n true (buildO n).2]⟩ := by
  simp [runLoopAux, h, hb]

theorem runLoopAux_succ_buildFail {ps : List StepData} {stepO : StepOracle}
    {buildO : BuildOracle} {r n : Nat} {le : Option String} {acc : List String}
    (h : (runPlanSteps stepO n le ps 0).all_ok = true) (hb : (buildO n).1 = false) :
    runLoopAux ps stepO buildO (r + 1) n le acc =
      ⟨(runLoopAux ps stepO buildO r (n + 1) (some (buildO n).2)
          (acc ++ (runPlanSteps stepO n le ps 0).touched)).success,
        (runLoopAux ps stepO buildO r (n + 1) (some (buildO n).2)
          (acc ++ (runPlanSteps stepO n le ps 0).touched)).last_error,
        (runLoopAux ps stepO buildO r (n + 1) (some (buildO n).2)
          (acc ++ (runPlanSteps stepO n le ps 0).touched)).modified_files,
        (runPlanSteps stepO n le ps 0).trace ++ .buildRun n false (buildO n).2 ::
          (runLoopAux ps stepO buildO r (n + 1) (some (buildO n).2)
            (acc ++ (runPlanSteps stepO n le ps 0).touched)).trace⟩ := by
  simp [runLoopAux, h, hb]

theorem runLoopAux_attempt_range (ps : List StepData) (stepO : StepOracle)
    (buildO : BuildOracle) (r n : Nat) (le : Option String) (acc : List String) :
    ∀ e ∈ (runLoopAux ps stepO buildO r n le acc).trace,
      n ≤ e.attemptNo ∧ e.attemptNo < n + r := by
  induction r generalizing n le acc with
  | zero => intro e he; simp [runLoopAux_zero] at he
  | succ r ih =>
    intro e he
    cases hok : (runPlanSteps stepO n le ps 0).all_ok with
    | true =>
      cases hb : (buildO n).1 with
      | true =>
        rw [runLoopAux_succ_buildOk hok hb] at he
        simp only [List.mem_append, List.mem_singleton] at he
        rcases he with he | rfl
        · obtain ⟨j, ok, fs, rfl, _⟩ := runPlanSteps_trace_shape stepO n le ps 0 e he
          simp only [LoopEvent.attemptNo]
          omega
        · simp only [LoopEvent.attemptNo]
          omega
      | false =>
        rw [runLoopAux_succ_buildFail hok hb] at he
        simp only [List.mem_append, List.mem_cons] at he
        rcases he with he | rfl | he
        · obtain ⟨j, ok, fs, rfl, _⟩ := runPlanSteps_trace_shape stepO n le ps 0 e he
          simp only [LoopEvent.attemptNo]
          omega
        · simp only [LoopEvent.attemptNo]
          omega
        · obtain ⟨h1, h2⟩ := ih (n + 1) (some (buildO n).2) _ e he
          omega
    | false =>
      rw [runLoopAux_succ_stepsFail hok] at he
      simp only [List.mem_append] at he
      rcases he with he | he
      · obtain ⟨j, ok, fs, rfl, _⟩ := runPlanSteps_trace_shape stepO n le ps 0 e he
        simp only [LoopEvent.attemptNo]
        omega
      · obtain ⟨h1, h2⟩ := ih (n + 1) (runPlanSteps stepO n le ps 0).last_error _ e he
        omega

theorem runLoopAux_stepRun_prev (ps : List StepData) (stepO : StepOracle)
    (buildO : BuildOracle) (r n : Nat) (le : Option String) (acc : List String)
    {j : Nat} {p : Option String} {b : Bool} {fs : List String}
    (he : LoopEvent.stepRun n j p b fs ∈ (runLoopAux ps stepO buildO r n le acc).trace) :
    p = le := by
  cases r with
  | zero => simp [runLoopAux_zero] at he
  | succ r =>
    have notail : ∀ le' acc', LoopEvent.stepRun n j p b fs ∉
        (runLoopAux ps stepO buildO r (n + 1) le' acc').trace := by
      intro le' acc' hmem
      have := (runLoopAux_attempt_range ps stepO buildO r (n + 1) le' acc' _ hmem).1
      simp only [LoopEvent.attemptNo] at this
      omega
    have fromSteps : LoopEvent.stepRun n j p b fs ∈ (runPlanSteps stepO n le ps 0).trace →
        p = le := by
      intro hmem
      obtain ⟨j', ok, fs', hshape, _⟩ := runPlanSteps_trace_shape stepO n le ps 0 _ hmem
      cases hshape
      rfl
    cases hok : (runPlanSteps stepO n le ps 0).all_ok with
    | true =>
      cases hb : (buildO n).1 with
      | true =>
        rw [runLoopAux_succ_buildOk hok hb] at he
        simp only [List.mem_append, List.mem_singleton] at he
        rcases he with he | he
        · exact fromSteps he
        · cases he
      | false =>
        rw [runLoopAux_succ_buildFail hok hb] at he
        simp only [List.mem_append, List.mem_cons] at he
        rcases he with he | he | he
        · exact fromSteps he
        · cases he
        · exact absurd he (notail _ _)
    | false =>
      rw [runLoopAux_succ_stepsFail hok] at he
      simp only [List.mem_append] at he
      rcases he with he | he
      · exact fromSteps he
      · exact absurd he (notail _ _)

theorem runLoopAux_success_iff (ps : List StepData) (stepO : StepOracle)
    (buildO : BuildOracle) (r n : Nat) (le : Option String) (acc : List String) :
    (runLoopAux ps stepO buildO r n le acc).success = true ↔
      ∃ a out, LoopEvent.buildRun a true out ∈ (runLoopAux ps stepO buildO r n le acc).trace := by
  induction r generalizing n le acc with
  | zero => simp [runLoopAux_zero]
  | succ r ih =>
    cases hok : (runPlanSteps stepO n le ps 0).all_ok with
    | true =>
      cases hb : (buildO n).1 with
      | true =>
        rw [runLoopAux_succ_buildOk hok hb]
        simp only [List.mem_append, List.mem_singleton, true_iff]
        exact ⟨n, (buildO n).2, Or.inr rfl⟩
      | false =>
        rw [runLoopAux_succ_buildFail hok hb]
        rw [ih (n + 1) (some (buildO n).2) (acc ++ (runPlanSteps stepO n le ps 0).touched)]
        constructor
        · rintro ⟨a, out, hmem⟩
          exact ⟨a, out, by simp only [List.mem_append, List.mem_cons]; exact Or.inr (Or.inr hmem)⟩
        · rintro ⟨a, out, hmem⟩
          simp only [List.mem_append, List.mem_cons] at hmem
          rcases hmem with hmem | hmem | hmem
          · obtain ⟨j, ok, fs, hshape, _⟩ :=
              runPlanSteps_trace_shape stepO n le ps 0 _ hmem
            cases hshape
          · cases hmem
          · exact ⟨a, out, hmem⟩
    | false =>
      rw [runLoopAux_succ_stepsFail hok]
      rw [ih (n + 1) (runPlanSteps stepO n le ps 0).last_error
        (acc ++ (runPlanSteps stepO n le ps 0).touched)]
      constructor
      · rintro ⟨a, out, hmem⟩
        exact ⟨a, out, by simp only [List.mem_append]; exact Or.inr hmem⟩
      · rintro ⟨a, out, hmem⟩
        simp only [List.mem_append] at hmem
        rcases hmem with hmem | hmem
        · obtain ⟨j, ok, fs, hshape, _⟩ :=
            runPlanSteps_trace_shape stepO n le ps 0 _ hmem
          cases hshape
        · exact ⟨a, out, hmem⟩

theorem runLoopAux_modified_files (ps : List StepData) (stepO : StepOracle)
    (buildO : BuildOracle) (r n : Nat) (le : Option String) (acc : List String)
    (path : String) :
    path ∈ (runLoopAux ps stepO buildO r n le acc).modified_files ↔
      path ∈ acc ∨ ∃ e ∈ (runLoopAux ps stepO buildO r n le acc).trace, path ∈ e.touched := by
  induction r generalizing n le acc with
  | zero => simp [runLoopAux_zero]
  | succ r ih =>
    cases hok : (runPlanSteps stepO n le ps 0).all_ok with
    | true =>
      cases hb : (buildO n).1 with
      | true =>
        rw [runLoopAux_succ_buildOk hok hb]
        simp only [List.mem_append, List.mem_singleton, runPlanSteps_touched stepO n le ps 0]
        constructor
        · rintro (h | ⟨e, he, hp⟩)
          · exact Or.inl h
          · exact Or.inr ⟨e, Or.inl he, hp⟩
        · rintro (h | ⟨e, he | rfl, hp⟩)
          · exact Or.inl h
          · exact Or.inr ⟨e, he, hp⟩
          · simp [LoopEvent.touched] at hp
      | false =>
        rw [runLoopAux_succ_buildFail hok hb]
        rw [ih (n + 1) (some (buildO n).2) (acc ++ (runPlanSteps stepO n le ps 0).touched)]
        simp only [List.mem_append, List.mem_cons, runPlanSteps_touched stepO n le ps 0]
        constructor
        · rintro ((h | ⟨e, he, hp⟩) | ⟨e, he, hp⟩)
          · exact Or.inl h
          · exact Or.inr ⟨e, Or.inl he, hp⟩
          · exact Or.inr ⟨e, Or.inr (Or.inr he), hp⟩
        · rintro (h | ⟨e, he | rfl | he, hp⟩)
          · exact Or.inl (Or.inl h)
          · exact Or.inl (Or.inr ⟨e, he, hp⟩)
          · simp [LoopEvent.touched] at hp
          · exact Or.inr ⟨e, he, hp⟩
    | false =>
      rw [runLoopAux_succ_stepsFail hok]
      rw [ih (n + 1) (runPlanSteps stepO n le ps 0).last_error
        (acc ++ (runPlanSteps stepO n le ps 0).touched)]
      simp only [List.mem_append, runPlanSteps_touched stepO n le ps 0]
      constructor
      · rintro ((h | ⟨e, he, hp⟩) | ⟨e, he, hp⟩)
        · exact Or.inl h
        · exact Or.inr ⟨e, Or.inl he, hp⟩
        · exact Or.inr ⟨e, Or.inr he, hp⟩
      · rintro (h | ⟨e, he | he, hp⟩)
        · exact Or.inl (Or.inl h)
        · exact Or.inl (Or.inr ⟨e, he, hp⟩)
        · exact Or.inr ⟨e, he, hp⟩

theorem runLoopAux_trace_len (ps : List StepData) (stepO : StepOracle)
    (buildO : BuildOracle) (r n : Nat) (le : Option String) (acc : List String) :
    (runLoopAux ps stepO buildO r n le acc).trace.length ≤ r * (ps.length + 1) := by
  induction r generalizing n le acc with
  | zero => simp [runLoopAux_zero]
  | succ r ih =>
    have hS := runPlanSteps_trace_len stepO n le ps 0
    cases hok : (runPlanSteps stepO n le ps 0).all_ok with
    | true =>
      cases hb : (buildO n).1 with
      | true =>
        rw [runLoopAux_succ_buildOk hok hb]
        simp only [List.length_append, List.length_singleton]
        have := ih (n + 1) (some (buildO n).2) (acc ++ (runPlanSteps stepO n le ps 0).touched)
        nlinarith [Nat.succ_mul r (ps.length + 1)]
      | false =>
        rw [runLoopAux_succ_buildFail hok hb]
        simp only [List.length_append, List.length_cons]
        have := ih (n + 1) (some (buildO n).2) (acc ++ (runPlanSteps stepO n le ps 0).touched)
        nlinarith [Nat.succ_mul r (ps.length + 1)]
    | false =>
      rw [runLoopAux_succ_stepsFail hok]
      simp only [List.length_append]
      have := ih (n + 1) (runPlanSteps stepO n le ps 0).last_error
        (acc ++ (runPlanSteps stepO n le ps 0).touched)
      nlinarith [Nat.succ_mul r (ps.length + 1)]

theorem runLoopAux_fail_props (ps : List StepData) (stepO : StepOracle)
    (buildO : BuildOracle) (r n : Nat) (le : Option String) (acc : List String)
    {a i : Nat} {p : Option String} {fsF : List String}
    (hf : LoopEvent.stepRun a i p false fsF ∈ (runLoopAux ps stepO buildO r n le acc).trace) :
    (∀ bOk out, LoopEvent.buildRun a bOk out ∉ (runLoopAux ps stepO buildO r n le acc).trace) ∧
      (∀ j p' b fs, LoopEvent.stepRun a j p' b fs ∈
          (runLoopAux ps stepO buildO r n le acc).trace → j ≤ i) ∧
      ∃ s, ps.get? i = some s ∧
        ∀ j p' b fs, LoopEvent.stepRun (a + 1) j p' b fs ∈
            (runLoopAux ps stepO buildO r n le acc).trace →
          p' = (if optFalsy p then some (stepFailureMessage s) else p) := by
  induction r generalizing n le acc with
  | zero => simp [runLoopAux_zero] at hf
  | succ r ih =>
    cases hok : (runPlanSteps stepO n le ps 0).all_ok with
    | true =>
      cases hb : (buildO n).1 with
      | true =>
        rw [runLoopAux_succ_buildOk hok hb] at hf
        simp only [List.mem_append, List.mem_singleton] at hf
        rcases hf with hf | hf
        · exact absurd hok (by simp [(runPlanSteps_fail_props stepO n le ps 0 hf).1])
        · cases hf
      | false =>
        rw [runLoopAux_succ_buildFail hok hb] at hf
        simp only [List.mem_append, List.mem_cons] at hf
        rcases hf with hf | hf | hf
        · exact absurd hok (by simp [(runPlanSteps_fail_props stepO n le ps 0 hf).1])
        · cases hf
        · have ha : n + 1 ≤ a := by
            have := (runLoopAux_attempt_range ps stepO buildO r (n + 1)
              (some (buildO n).2) _ _ hf).1
            simpa [LoopEvent.attemptNo] using this
          obtain ⟨c1, c2, s, hs, c3⟩ := ih (n + 1) (some (buildO n).2)
            (acc ++ (runPlanSteps stepO n le ps 0).touched) hf
          rw [runLoopAux_succ_buildFail hok hb]
          refine ⟨?_, ?_, s, hs, ?_⟩
          · intro bOk out hmem
            simp only [List.mem_append, List.mem_cons] at hmem
            rcases hmem with hmem | hmem | hmem
            · obtain ⟨j', ok', fs', hshape, _⟩ :=
                runPlanSteps_trace_shape stepO n le ps 0 _ hmem
              cases hshape
            · injection hmem with f1 f2 f3
              omega
            · exact c1 bOk out hmem
          · intro j p' b fs hmem
            simp only [List.mem_append, List.mem_cons] at hmem
            rcases hmem with hmem | hmem | hmem
            · obtain ⟨j', ok', fs', hshape, _⟩ :=
                runPlanSteps_trace_shape stepO n le ps 0 _ hmem
              injection hshape with f1 f2 f3 f4 f5
              omega
            · cases hmem
            · exact c2 j p' b fs hmem
          · intro j p' b fs hmem
            simp only [List.mem_append, List.mem_cons] at hmem
            rcases hmem with hmem | hmem | hmem
            · obtain ⟨j', ok', fs', hshape, _⟩ :=
                runPlanSteps_trace_shape stepO n le ps 0 _ hmem
              injection hshape with f1 f2 f3 f4 f5
              exfalso
              omega
            · cases hmem
            · exact c3 j p' b fs hmem
    | false =>
      rw [runLoopAux_succ_stepsFail hok] at hf
      simp only [List.mem_append] at hf
      rw [runLoopAux_succ_stepsFail hok]
      rcases hf with hf | hf
      · obtain ⟨jS, okS, fsS, hshape, _⟩ := runPlanSteps_trace_shape stepO n le ps 0 _ hf
        injection hshape with e1 e2 e3 e4 e5
        obtain ⟨_, s, hget, herr⟩ := runPlanSteps_fail_props stepO n le ps 0 hf
        simp only [Nat.sub_zero] at hget
        refine ⟨?_, ?_, s, hget, ?_⟩
        · intro bOk out hmem
          simp only [List.mem_append] at hmem
          rcases hmem with hmem | hmem
          · obtain ⟨j', ok', fs', hshape', _⟩ :=
              runPlanSteps_trace_shape stepO n le ps 0 _ hmem
            cases hshape'
          · have hrange := (runLoopAux_attempt_range ps stepO buildO r (n + 1)
              (runPlanSteps stepO n le ps 0).last_error _ _ hmem).1
            simp only [LoopEvent.attemptNo] at hrange
            omega
        · intro j p' b fs hmem
          simp only [List.mem_append] at hmem
          rcases hmem with hmem | hmem
          · exact runPlanSteps_fail_last stepO n le ps 0 hf _ _ _ _ _ hmem
          · have hrange := (runLoopAux_attempt_range ps stepO buildO r (n + 1)
              (runPlanSteps stepO n le ps 0).last_error _ _ hmem).1
            simp only [LoopEvent.attemptNo] at hrange
            omega
        · intro j p' b fs hmem
          simp only [List.mem_append] at hmem
          rcases hmem with hmem | hmem
          · obtain ⟨j', ok', fs', hshape', _⟩ :=
              runPlanSteps_trace_shape stepO n le ps 0 _ hmem
            injection hshape' with f1 f2 f3 f4 f5
            exfalso
            omega
          · rw [e1] at hmem
            have hprev := runLoopAux_stepRun_prev ps stepO buildO r (n + 1)
              (runPlanSteps stepO n le ps 0).last_error _ hmem
            rw [hprev, herr, e3]
      · have ha : n + 1 ≤ a := by
          have := (runLoopAux_attempt_range ps stepO buildO r (n + 1)
            (runPlanSteps stepO n le ps 0).last_error _ _ hf).1
          simpa [LoopEvent.attemptNo] using this
        obtain ⟨c1, c2, s, hs, c3⟩ := ih (n + 1) (runPlanSteps stepO n le ps 0).last_error
          (acc ++ (runPlanSteps stepO n le ps 0).touched) hf
        refine ⟨?_, ?_, s, hs, ?_⟩
        · intro bOk out hmem
          simp only [List.mem_append] at hmem
          rcases hmem with hmem | hmem
          · obtain ⟨j', ok', fs', hshape, _⟩ :=
              runPlanSteps_trace_shape stepO n le ps 0 _ hmem
            cases hshape
          · exact c1 bOk out hmem
        · intro j p' b fs hmem
          simp only [List.mem_append] at hmem
          rcases hmem with hmem | hmem
          · obtain ⟨j', ok', fs', hshape, _⟩ :=
              runPlanSteps_trace_shape stepO n le ps 0 _ hmem
            injection hshape with f1 f2 f3 f4 f5
            omega
          · exact c2 j p' b fs hmem
        · intro j p' b fs hmem
          simp only [List.mem_append] at hmem
          rcases hmem with hmem | hmem
          · obtain ⟨j', ok', fs', hshape, _⟩ :=
              runPlanSteps_trace_shape stepO n le ps 0 _ hmem
            injection hshape with f1 f2 f3 f4 f5
            exfalso
            omega
          · exact c3 j p' b fs hmem

theorem run_execution_loop_empty {plan_steps : List StepData} {stepO : StepOracle}
    {buildO : BuildOracle} {max_retries : Int} (h : plan_steps.isEmpty = true) :
    run_execution_loop plan_steps stepO buildO max_retries = ⟨true, none, [], []⟩ := by
  simp [run_execution_loop, h]

theorem run_execution_loop_nonempty {plan_steps : List StepData} {stepO : StepOracle}
    {buildO : BuildOracle} {max_retries : Int} (h : plan_steps.isEmpty = false) :
    run_execution_loop plan_steps stepO buildO max_retries =
      runLoopAux plan_steps stepO buildO max_retries.toNat 1 none [] := by
  simp [run_execution_loop, h]

/-! ## The claims about the Build/Retry Loop -/

/-- C6: in every attempt of the Build/Retry Loop, if the step at index `i`
of the plan fails, then no step with a larger index runs in that attempt:
every step event of the same attempt has index at most `i`. -/
theorem step_failure_short_circuit (plan_steps : List StepData) (stepO : StepOracle)
    (buildO : BuildOracle) (max_retries : Int) {a i j : Nat} {p p' : Option String}
    {b' : Bool} {ps ps' : List String}
    (hfail : LoopEvent.stepRun a i p false ps ∈
      (run_execution_loop plan_steps stepO buildO max_retries).trace)
    (hother : LoopEvent.stepRun a j p' b' ps' ∈
      (run_execution_loop plan_steps stepO buildO max_retries).trace) :
    j ≤ i := by
  cases he : plan_steps.isEmpty with
  | true =>
    rw [run_execution_loop_empty he] at hfail
    simp at hfail
  | false =>
    rw [run_execution_loop_nonempty he] at hfail hother
    exact (runLoopAux_fail_props plan_steps stepO buildO max_retries.toNat 1 none []
      hfail).2.1 j p' b' ps' hother

/-- Witness for C6 at a concrete run: a two-step plan whose first step
succeeds (touching `x.go`) and whose second step fails in attempt 1; the
failing index is 1, the other executed index is 0, and the theorem bounds it. -/
theorem step_failure_short_circuit_witness :
    (LoopEvent.stepRun 1 1 none false [] ∈
      (run_execution_loop [{ step_id := some "s1" }, { step_id := some "s2" }]
        (fun _ i _ => if i = 0 then (true, ["x.go"]) else (false, []))
        (fun _ => (true, "")) 1).trace) ∧
    (LoopEvent.stepRun 1 0 none true ["x.go"] ∈
      (run_execution_loop [{ step_id := some "s1" }, { step_id := some "s2" }]
        (fun _ i _ => if i = 0 then (true, ["x.go"]) else (false, []))
        (fun _ => (true, "")) 1).trace) ∧
    (0 : Nat) ≤ 1 := by
  refine ⟨by decide, by decide, ?_⟩
  exact @step_failure_short_circuit [{ step_id := some "s1" }, { step_id := some "s2" }]
    (fun _ i _ => if i = 0 then (true, ["x.go"]) else (false, []))
    (fun _ => (true, "")) 1 1 1 0 none none true [] ["x.go"] (by decide) (by decide)

/-- C7: the Build/Retry Loop is a total function whose external calls are
bounded: every event of the trace belongs to an attempt between 1 and
`max_retries`, the trace holds at most `max_retries * (steps + 1)` calls,
and the run is successful exactly when the plan was empty or some build
command run succeeded — exhausting the attempts yields the ordinary failure
result. -/
theorem retry_loop_termination (plan_steps : List StepData) (stepO : StepOracle)
    (buildO : BuildOracle) (max_retries : Int) :
    (∀ e ∈ (run_execution_loop plan_steps stepO buildO max_retries).trace,
      1 ≤ e.attemptNo ∧ e.attemptNo ≤ max_retries.toNat) ∧
    (run_execution_loop plan_steps stepO buildO max_retries).trace.length ≤
      max_retries.toNat * (plan_steps.length + 1) ∧
    ((run_execution_loop plan_steps stepO buildO max_retries).success = true ↔
      (plan_steps = [] ∨ ∃ a out, LoopEvent.buildRun a true out ∈
        (run_execution_loop plan_steps stepO buildO max_retries).trace)) := by
  cases he : plan_steps.isEmpty with
  | true =>
    rw [run_execution_loop_empty he]
    simp_all [List.isEmpty_iff]
  | false =>
    rw [run_execution_loop_nonempty he]
    refine ⟨?_, ?_, ?_⟩
    · intro e hmem
      have := runLoopAux_attempt_range plan_steps stepO buildO max_retries.toNat 1 none [] e hmem
      omega
    · exact runLoopAux_trace_len plan_steps stepO buildO max_retries.toNat 1 none []
    · rw [runLoopAux_success_iff plan_steps stepO buildO max_retries.toNat 1 none []]
      have hne : plan_steps ≠ [] := by
        intro hcon
        rw [hcon] at he
        simp at he
      simp [hne]

/-- Witness for C7 at a concrete run: one step that always fails, two
allowed attempts; both events stay in attempts 1..2, at most 2 * 2 calls
happen, and the run is not successful (no successful build, plan nonempty). -/
theorem retry_loop_termination_witness :
    (∀ e ∈ (run_execution_loop [{ step_id := some "s1" }]
        (fun _ _ _ => (false, [])) (fun _ => (false, "boom")) 2).trace,
      1 ≤ e.attemptNo ∧ e.attemptNo ≤ (2 : Int).toNat) ∧
    (run_execution_loop [{ step_id := some "s1" }]
        (fun _ _ _ => (false, [])) (fun _ => (false, "boom")) 2).trace.length ≤
      (2 : Int).toNat * ((1 : Nat) + 1) ∧
    ((run_execution_loop [{ step_id := some "s1" }]
        (fun _ _ _ => (false, [])) (fun _ => (false, "boom")) 2).success = true ↔
      ([{ step_id := some "s1" }] = ([] : List StepData) ∨ ∃ a out,
        LoopEvent.buildRun a true out ∈ (run_execution_loop [{ step_id := some "s1" }]
          (fun _ _ _ => (false, [])) (fun _ => (false, "boom")) 2).trace)) :=
  retry_loop_termination [{ step_id := some "s1" }]
    (fun _ _ _ => (false, [])) (fun _ => (false, "boom")) 2

/-- C9: the set of touched paths the Build/Retry Loop returns is exactly the
union, over every step executed in any attempt (including attempts that then
failed at a step or at the build), of the paths that step reported as
touched. -/
theorem touched_paths_union (plan_steps : List StepData) (stepO : StepOracle)
    (buildO : BuildOracle) (max_retries : Int) (path : String) :
    path ∈ (run_execution_loop plan_steps stepO buildO max_retries).modified_files ↔
      ∃ e ∈ (run_execution_loop plan_steps stepO buildO max_retries).trace,
        path ∈ e.touched := by
  cases he : plan_steps.isEmpty with
  | true => rw [run_execution_loop_empty he]; simp
  | false =>
    rw [run_execution_loop_nonempty he]
    rw [runLoopAux_modified_files plan_steps stepO buildO max_retries.toNat 1 none [] path]
    simp

/-- Witness for C9, the spec's scenario: step 1 succeeds touching `x.go`,
step 2 fails; `x.go` is still in the returned touched-path set. -/
theorem touched_paths_union_witness :
    "x.go" ∈ (run_execution_loop [{ step_id := some "s1" }, { step_id := some "s2" }]
      (fun _ i _ => if i = 0 then (true, ["x.go"]) else (false, []))
      (fun _ => (true, "")) 1).modified_files :=
  (touched_paths_union [{ step_id := some "s1" }, { step_id := some "s2" }]
    (fun _ i _ => if i = 0 then (true, ["x.go"]) else (false, []))
    (fun _ => (true, "")) 1 "x.go").mpr
    ⟨LoopEvent.stepRun 1 0 none true ["x.go"], by decide, by decide⟩

/-- C10: calling the loop with a nonempty plan and `max_retries <= 0`
returns overall failure with no error message, an empty touched-path set
and an empty trace: no step ran and no build ran. -/
theorem loop_nonpositive_retries (plan_steps : List StepData) (stepO : StepOracle)
    (buildO : BuildOracle) (max_retries : Int)
    (hne : plan_steps ≠ []) (hmr : max_retries ≤ 0) :
    run_execution_loop plan_steps stepO buildO max_retries = ⟨false, none, [], []⟩ := by
  have he : plan_steps.isEmpty = false := by
    cases plan_steps with
    | nil => exact absurd rfl hne
    | cons s rest => rfl
  rw [run_execution_loop_nonempty he]
  have h0 : max_retries.toNat = 0 := Int.toNat_of_nonpos hmr
  rw [h0]
  exact runLoopAux_zero plan_steps stepO buildO 1 none []

/-- Witness for C10 at a concrete run with one step and `max_retries = 0`. -/
theorem loop_nonpositive_retries_witness :
    run_execution_loop [{ step_id := some "s1" }]
      (fun _ _ _ => (true, ["x.go"])) (fun _ => (true, "")) 0 = ⟨false, none, [], []⟩ :=
  loop_nonpositive_retries [{ step_id := some "s1" }]
    (fun _ _ _ => (true, ["x.go"])) (fun _ => (true, "")) 0 (by decide) (by decide)

/-- C3 fails on the code: when a step fails while the loop already holds a
previous (truthy) error context — here the build log of attempt 1 — the next
attempt receives that old build log, not the failing step's message.  The
step oracle of attempt 3 echoes the context it received into its touched
paths, making what attempt 3 was handed observable. -/
theorem loop_step_failure_context_counterexample :
    (LoopEvent.stepRun 2 0 (some "BUILD LOG 1") false [] ∈
      (run_execution_loop [{ step_id := some "s1", agent := some "agentA" }]
        (fun attempt _ prevErr =>
          if attempt = 1 then (true, [])
          else if attempt = 2 then (false, [])
          else (false, [prevErr.getD "NONE"]))
        (fun attempt => if attempt = 1 then (false, "BUILD LOG 1") else (false, "other"))
        3).trace) ∧
    (LoopEvent.stepRun 3 0 (some "BUILD LOG 1") false ["BUILD LOG 1"] ∈
      (run_execution_loop [{ step_id := some "s1", agent := some "agentA" }]
        (fun attempt _ prevErr =>
          if attempt = 1 then (true, [])
          else if attempt = 2 then (false, [])
          else (false, [prevErr.getD "NONE"]))
        (fun attempt => if attempt = 1 then (false, "BUILD LOG 1") else (false, "other"))
        3).trace) ∧
    "BUILD LOG 1" ≠
      stepFailureMessage { step_id := some "s1", agent := some "agentA" } := by
  refine ⟨by decide, by decide, by decide⟩

/-- C3 (amended): when an attempt fails during step execution, no build
command runs in that attempt, and the next attempt receives as its
`previous_error` the failing step's failure message **only if no previous
error context was held** (`None` or empty); otherwise the previously held
error — typically the last build log — is passed on unchanged. -/
theorem loop_step_failure_context_amended (plan_steps : List StepData) (stepO : StepOracle)
    (buildO : BuildOracle) (max_retries : Int) {a i : Nat} {p : Option String}
    {ps : List String}
    (hfail : LoopEvent.stepRun a i p false ps ∈
      (run_execution_loop plan_steps stepO buildO max_retries).trace) :
    (∀ bOk out, LoopEvent.buildRun a bOk out ∉
      (run_execution_loop plan_steps stepO buildO max_retries).trace) ∧
    ∃ s, plan_steps.get? i = some s ∧
      ∀ j p' b fs, LoopEvent.stepRun (a + 1) j p' b fs ∈
          (run_execution_loop plan_steps stepO buildO max_retries).trace →
        p' = (if optFalsy p then some (stepFailureMessage s) else p) := by
  cases he : plan_steps.isEmpty with
  | true =>
    rw [run_execution_loop_empty he] at hfail
    simp at hfail
  | false =>
    rw [run_execution_loop_nonempty he] at hfail ⊢
    obtain ⟨c1, _, s, hs, c3⟩ :=
      runLoopAux_fail_props plan_steps stepO buildO max_retries.toNat 1 none [] hfail
    exact ⟨c1, s, hs, c3⟩

/-- Witness for C3 (amended) at a concrete run: one step failing in attempt
1 with no prior context and two allowed attempts; no build runs in attempt 1
and attempt 2 receives the step-failure message. -/
theorem loop_step_failure_context_amended_witness :
    (LoopEvent.stepRun 1 0 none false [] ∈
      (run_execution_loop [{ step_id := some "s1", agent := some "agentA" }]
        (fun _ _ _ => (false, [])) (fun _ => (false, "out")) 2).trace) ∧
    ((∀ bOk out, LoopEvent.buildRun 1 bOk out ∉
      (run_execution_loop [{ step_id := some "s1", agent := some "agentA" }]
        (fun _ _ _ => (false, [])) (fun _ => (false, "out")) 2).trace) ∧
    ∃ s : StepData, [{ step_id := some "s1", agent := some "agentA" }].get? 0 = some s ∧
      ∀ j p' b fs, LoopEvent.stepRun (1 + 1) j p' b fs ∈
          (run_execution_loop [{ step_id := some "s1", agent := some "agentA" }]
            (fun _ _ _ => (false, [])) (fun _ => (false, "out")) 2).trace →
        p' = (if optFalsy none then
          some (stepFailureMessage { step_id := some "s1", agent := some "agentA" })
          else none)) := by
  have happ := @loop_step_failure_context_amended
    [{ step_id := some "s1", agent := some "agentA" }]
    (fun _ _ _ => (false, [])) (fun _ => (false, "out")) 2
    1 0 none [] (by decide)
  refine ⟨by decide, happ.1, ?_⟩
  obtain ⟨s, hs, c3⟩ := happ.2
  have hs0 : s = { step_id := some "s1", agent := some "agentA" } := by
    simpa using hs.symm
  subst hs0
  exact ⟨_, hs, c3⟩

/-! ## Lemmas about `backup_files` and `finalize_execution` -/

theorem backup_files_sound (paths : List String) (src : FS) (copyOk : String → Bool)
    {q c : String} (h : (q, c) ∈ backup_files paths src copyOk) :
    ∃ p ∈ paths, q = bakName p ∧ readFile src p = some c ∧ copyOk p = true := by
  induction paths with
  | nil => simp [backup_files] at h
  | cons p rest ih =>
    simp only [backup_files] at h
    split at h
    · obtain ⟨p', hp', hrest⟩ := ih h
      exact ⟨p', List.mem_cons_of_mem p hp', hrest⟩
    · split at h
      · obtain ⟨p', hp', hrest⟩ := ih h
        exact ⟨p', List.mem_cons_of_mem p hp', hrest⟩
      · split at h
        next content heq =>
          split at h
          next hcopy =>
            simp only [List.mem_cons] at h
            rcases h with h | h
            · injection h with h1 h2
              subst h1; subst h2
              exact ⟨p, List.mem_cons_self p rest, rfl, heq, hcopy⟩
            · obtain ⟨p', hp', hrest⟩ := ih h
              exact ⟨p', List.mem_cons_of_mem p hp', hrest⟩
          next =>
            obtain ⟨p', hp', hrest⟩ := ih h
            exact ⟨p', List.mem_cons_of_mem p hp', hrest⟩
        next heq =>
          obtain ⟨p', hp', hrest⟩ := ih h
          exact ⟨p', List.mem_cons_of_mem p hp', hrest⟩

theorem backup_files_complete (paths : List String) (src : FS) (copyOk : String → Bool)
    {p c : String} (hmem : p ∈ paths) (hblank : stripIsEmpty p = false)
    (hdots : hasDotDot p.data = false) (hread : readFile src p = some c)
    (hcopy : copyOk p = true) :
    (bakName p, c) ∈ backup_files paths src copyOk := by
  induction paths with
  | nil => simp at hmem
  | cons p0 rest ih =>
    simp only [List.mem_cons] at hmem
    simp only [backup_files]
    rcases hmem with rfl | hmem
    · rw [hblank, hdots, hread, hcopy]
      simp
    · have htail := ih hmem
      split
      · exact htail
      · split
        · exact htail
        · split
          next c0 heq =>
            split
            · exact List.mem_cons_of_mem _ htail
            · exact htail
          next => exact htail

theorem finalize_execution_noBackup {files_to_apply : List String}
    {workspace_project target_project : FS} {backupMkdirOk : Bool}
    {backupCopyOk finalCopyOk : String → Bool}
    (hne : files_to_apply.isEmpty = false)
    (hfb : (files_to_apply.filter
      (fun p => (readFile target_project p).isSome)).isEmpty = true) :
    finalize_execution files_to_apply workspace_project target_project backupMkdirOk
        backupCopyOk finalCopyOk =
      ⟨!(applyFiles files_to_apply workspace_project target_project finalCopyOk).2,
        (applyFiles files_to_apply workspace_project target_project finalCopyOk).1, []⟩ := by
  simp [finalize_execution, hne, hfb]

theorem finalize_execution_mkdirFail {files_to_apply : List String}
    {workspace_project target_project : FS} {backupCopyOk finalCopyOk : String → Bool}
    (hne : files_to_apply.isEmpty = false)
    (hfb : (files_to_apply.filter
      (fun p => (readFile target_project p).isSome)).isEmpty = false) :
    finalize_execution files_to_apply workspace_project target_project false
        backupCopyOk finalCopyOk = ⟨false, target_project, []⟩ := by
  simp [finalize_execution, hne, hfb]

theorem finalize_execution_main {files_to_apply : List String}
    {workspace_project target_project : FS} {backupCopyOk finalCopyOk : String → Bool}
    (hne : files_to_apply.isEmpty = false)
    (hfb : (files_to_apply.filter
      (fun p => (readFile target_project p).isSome)).isEmpty = false) :
    finalize_execution files_to_apply workspace_project target_project true
        backupCopyOk finalCopyOk =
      ⟨!(applyFiles files_to_apply workspace_project target_project finalCopyOk).2,
        (applyFiles files_to_apply workspace_project target_project finalCopyOk).1,
        backup_files (files_to_apply.filter (fun p => (readFile target_project p).isSome))
          target_project backupCopyOk⟩ := by
  simp [finalize_execution, hne, hfb]

/-! ## The claim about the Finalizer -/

/-- C1 fails on the code in two ways, both visible at one input.  Plan
`["a/b.txt", "c.txt"]`, both files existing in the target, and a backup
oracle under which the individual copy of `c.txt` fails: `backup_files`
merely logs the failed copy, `finalize_execution` still overwrites `c.txt`
in the target and returns success — not the claimed failure with zero files
modified.  Moreover the one backup that was taken is stored under the
flattened name `a_b_dot_txt.bak`, not under the mirrored relative path
`a/b.txt`. -/
theorem finalize_backup_claim_counterexample :
    (finalize_execution ["a/b.txt", "c.txt"]
      [("a/b.txt", "B1"), ("c.txt", "C1")]
      [("a/b.txt", "B0"), ("c.txt", "C0")]
      true (fun p => p = "a/b.txt") (fun _ => true)).success = true ∧
    readFile (finalize_execution ["a/b.txt", "c.txt"]
      [("a/b.txt", "B1"), ("c.txt", "C1")]
      [("a/b.txt", "B0"), ("c.txt", "C0")]
      true (fun p => p = "a/b.txt") (fun _ => true)).target "c.txt" = some "C1" ∧
    (finalize_execution ["a/b.txt", "c.txt"]
      [("a/b.txt", "B1"), ("c.txt", "C1")]
      [("a/b.txt", "B0"), ("c.txt", "C0")]
      true (fun p => p = "a/b.txt") (fun _ => true)).backup =
      [("a_b_dot_txt.bak", "B0")] := by
  refine ⟨by decide, by decide, by decide⟩

/-- C1 (amended): for a non-empty plan, (1) if some planned file exists in
the target and creating the backup directory fails, the call returns failure
with the target tree unchanged and no backup; (2) every planned path that is
a file of the target (valid: not blank, no `".."`) whose individual backup
copy succeeds is saved — before any write — under its flattened mangled name
with its original content; (3) everything in the backup directory is the
original (pre-write) target content of some planned path, stored under the
mangled name.  An individual backup-copy failure does not abort the run and
does not prevent the file from being overwritten. -/
theorem finalize_backup_amended (files_to_apply : List String)
    (workspace_project target_project : FS) (backupMkdirOk : Bool)
    (backupCopyOk finalCopyOk : String → Bool)
    (hne : files_to_apply ≠ []) :
    ((∃ p ∈ files_to_apply, (readFile target_project p).isSome) → backupMkdirOk = false →
      finalize_execution files_to_apply workspace_project target_project backupMkdirOk
        backupCopyOk finalCopyOk = ⟨false, target_project, []⟩) ∧
    (∀ p c, p ∈ files_to_apply → readFile target_project p = some c →
      stripIsEmpty p = false → hasDotDot p.data = false → backupCopyOk p = true →
      backupMkdirOk = true →
      (bakName p, c) ∈ (finalize_execution files_to_apply workspace_project target_project
        backupMkdirOk backupCopyOk finalCopyOk).backup) ∧
    (∀ q c, (q, c) ∈ (finalize_execution files_to_apply workspace_project target_project
        backupMkdirOk backupCopyOk finalCopyOk).backup →
      ∃ p ∈ files_to_apply, q = bakName p ∧ readFile target_project p = some c) := by
  have hne' : files_to_apply.isEmpty = false := by
    cases files_to_apply with
    | nil => exact absurd rfl hne
    | cons a l => rfl
  refine ⟨?_, ?_, ?_⟩
  · rintro ⟨p, hp, hsome⟩ rfl
    have hfb : (files_to_apply.filter
        (fun p => (readFile target_project p).isSome)).isEmpty = false := by
      have : p ∈ files_to_apply.filter (fun p => (readFile target_project p).isSome) :=
        List.mem_filter.mpr ⟨hp, hsome⟩
      rcases hfilter : files_to_apply.filter (fun p => (readFile target_project p).isSome) with
        _ | ⟨a, l⟩
      · rw [hfilter] at this; simp at this
      · rfl
    exact finalize_execution_mkdirFail hne' hfb
  · intro p c hp hread hblank hdots hcopy hmk
    subst hmk
    have hpf : p ∈ files_to_apply.filter (fun p => (readFile target_project p).isSome) :=
      List.mem_filter.mpr ⟨hp, by simp [hread]⟩
    have hfb : (files_to_apply.filter
        (fun p => (readFile target_project p).isSome)).isEmpty = false := by
      rcases hfilter : files_to_apply.filter (fun p => (readFile target_project p).isSome) with
        _ | ⟨a, l⟩
      · rw [hfilter] at hpf; simp at hpf
      · rfl
    rw [finalize_execution_main hne' hfb]
    exact backup_files_complete _ target_project backupCopyOk hpf hblank hdots hread hcopy
  · intro q c hqc
    cases hfb : (files_to_apply.filter
        (fun p => (readFile target_project p).isSome)).isEmpty with
    | true =>
      rw [finalize_execution_noBackup hne' hfb] at hqc
      simp at hqc
    | false =>
      cases backupMkdirOk with
      | true =>
        rw [finalize_execution_main hne' hfb] at hqc
        obtain ⟨p, hp, hq, hrd, _⟩ := backup_files_sound _ target_project backupCopyOk hqc
        exact ⟨p, (List.mem_filter.mp hp).1, hq, hrd⟩
      | false =>
        rw [finalize_execution_mkdirFail hne' hfb] at hqc
        simp at hqc

/-- Witness for C1 (amended): with plan `["a.txt"]`, `a.txt` present in the
target and backup-directory creation failing, the call returns failure with
the target unchanged; with directory creation succeeding, `a.txt`'s original
content is in the backup under its mangled name. -/
theorem finalize_backup_amended_witness :
    (finalize_execution ["a.txt"] [("a.txt", "new")] [("a.txt", "old")] false
      (fun _ => true) (fun _ => true) = ⟨false, [("a.txt", "old")], []⟩) ∧
    ("a_dot_txt.bak", "old") ∈ (finalize_execution ["a.txt"] [("a.txt", "new")]
      [("a.txt", "old")] true (fun _ => true) (fun _ => true)).backup := by
  constructor
  · exact (finalize_backup_amended ["a.txt"] [("a.txt", "new")] [("a.txt", "old")] false
      (fun _ => true) (fun _ => true) (by decide)).1 ⟨"a.txt", by decide, by decide⟩ rfl
  · have h := (finalize_backup_amended ["a.txt"] [("a.txt", "new")] [("a.txt", "old")] true
      (fun _ => true) (fun _ => true) (by decide)).2.1 "a.txt" "old"
      (by decide) (by decide) (by decide) (by decide) (by decide) rfl
    have hb : bakName "a.txt" = "a_dot_txt.bak" := by decide
    rw [hb] at h
    exact h

/-! ## Lemmas about `assemble_expert_context` -/

theorem assembleTargetFragments_none_iff (manifest : List (String × FragmentInfo))
    (ws : FS) (l : List String) :
    (assembleTargetFragments manifest ws l).1 = none ↔
      ∃ fid ∈ l, targetHardFail manifest ws fid = true := by
  induction l with
  | nil => simp [assembleTargetFragments]
  | cons fid rest ih =>
    simp only [List.mem_cons, exists_eq_or_imp]
    rcases hlook : lookupA manifest fid with _ | info
    · simp [assembleTargetFragments, targetHardFail, hlook]
    · cases hact : optStrTruthy info.actual_source_path with
      | false => simp [assembleTargetFragments, targetHardFail, hlook, hact]
      | true =>
        cases hpath : (!info.is_templ_source && !optStrTruthy info.original_path) with
        | true => simp [assembleTargetFragments, targetHardFail, hlook, hact, hpath]
        | false =>
          rcases hrd : readFile ws (info.actual_source_path.getD "") with _ | content
          · simp [assembleTargetFragments, targetHardFail, hlook, hact, hpath, hrd]
          · rcases hcb : targetCodeBlock info content with _ | code
            · simp [assembleTargetFragments, targetHardFail, hlook, hact, hpath, hrd, hcb]
            · have hhf : targetHardFail manifest ws fid = false := by
                simp [targetHardFail, hlook, hact, hpath, hrd, hcb]
              rw [hhf]
              simp only [assembleTargetFragments, hlook, hact, hpath, hrd, hcb,
                Bool.not_true, Bool.false_eq_true, if_false, Option.map_eq_none',
                Bool.false_eq_true, false_or]
              exact ih

theorem assembleContextDefinitions_mem (manifest : List (String × FragmentInfo))
    (l : List String) (fid : String) :
    (fid ∈ (assembleContextDefinitions manifest l).1 →
      ∃ info, lookupA manifest fid = some info) ∧
    (fid ∈ (assembleContextDefinitions manifest l).2 →
      ∃ info, lookupA manifest fid = some info) := by
  induction l with
  | nil => simp [assembleContextDefinitions]
  | cons f rest ih =>
    rcases hlook : lookupA manifest f with _ | info
    · constructor
      · intro hmem
        have hmem' : fid ∈ (assembleContextDefinitions manifest rest).1 := by
          simpa only [assembleContextDefinitions, hlook] using hmem
        exact ih.1 hmem'
      · intro hmem
        have hmem' : fid ∈ (assembleContextDefinitions manifest rest).2 := by
          simpa only [assembleContextDefinitions, hlook] using hmem
        exact ih.2 hmem'
    · by_cases h1 : info.fragment_type = some "type" ∧ optStrTruthy info.definition = true
      · constructor
        · intro hmem
          have hmem' : fid ∈ f :: (assembleContextDefinitions manifest rest).1 := by
            simpa only [assembleContextDefinitions, hlook, if_pos h1] using hmem
          rcases List.mem_cons.mp hmem' with rfl | hmem''
          · exact ⟨info, hlook⟩
          · exact ih.1 hmem''
        · intro hmem
          have hmem' : fid ∈ (assembleContextDefinitions manifest rest).2 := by
            simpa only [assembleContextDefinitions, hlook, if_pos h1] using hmem
          exact ih.2 hmem'
      · by_cases h2 : (info.fragment_type = some "function" ∨
            info.fragment_type = some "method") ∧ optStrTruthy info.signature = true
        · constructor
          · intro hmem
            have hmem' : fid ∈ (assembleContextDefinitions manifest rest).1 := by
              simpa only [assembleContextDefinitions, hlook, if_neg h1, if_pos h2] using hmem
            exact ih.1 hmem'
          · intro hmem
            have hmem' : fid ∈ f :: (assembleContextDefinitions manifest rest).2 := by
              simpa only [assembleContextDefinitions, hlook, if_neg h1, if_pos h2] using hmem
            rcases List.mem_cons.mp hmem' with rfl | hmem''
            · exact ⟨info, hlook⟩
            · exact ih.2 hmem''
        · constructor
          · intro hmem
            have hmem' : fid ∈ (assembleContextDefinitions manifest rest).1 := by
              simpa only [assembleContextDefinitions, hlook, if_neg h1, if_neg h2] using hmem
            exact ih.1 hmem'
          · intro hmem
            have hmem' : fid ∈ (assembleContextDefinitions manifest rest).2 := by
              simpa only [assembleContextDefinitions, hlook, if_neg h1, if_neg h2] using hmem
            exact ih.2 hmem'

/-! ## The claim about Step Executor context assembly -/

/-- C5 fails on the code: a fragment id listed in the step's
`context_fragment_ids` that is missing from the inventory is not a hard
failure — with an empty manifest and context id `"X"`, assembly still
returns a context (silently omitting the definition the step listed). -/
theorem expert_context_hard_failure_counterexample :
    (assemble_expert_context ⟨[], ["X"], ""⟩ [] [] none).1 =
      some ⟨"", none, [], [], []⟩ := by decide

/-- C5 (amended): a *target* fragment id that is missing from the inventory,
lacks a truthy source path, names an unreadable workspace file, or carries
an invalid line range is a hard failure — context assembly returns no
context exactly when some target id fails this way.  A *context* fragment id
missing from the inventory is skipped with a warning instead: assembly
succeeds and the id simply appears in neither context-definition list. -/
theorem expert_context_hard_failure_amended (step_data : PlanStep)
    (full_manifest_fragments : List (String × FragmentInfo))
    (current_project_state_dir : FS) (previous_build_error : Option String) :
    ((assemble_expert_context step_data full_manifest_fragments current_project_state_dir
        previous_build_error).1 = none ↔
      ∃ fid ∈ step_data.target_fragment_ids,
        targetHardFail full_manifest_fragments current_project_state_dir fid = true) ∧
    (∀ ctx, (assemble_expert_context step_data full_manifest_fragments
        current_project_state_dir previous_build_error).1 = some ctx →
      ∀ fid ∈ step_data.context_fragment_ids, lookupA full_manifest_fragments fid = none →
        fid ∉ ctx.context_type_ids ∧ fid ∉ ctx.context_function_or_method_ids) := by
  constructor
  · rw [← assembleTargetFragments_none_iff full_manifest_fragments current_project_state_dir
      step_data.target_fragment_ids]
    simp only [assemble_expert_context]
    rcases ht : (assembleTargetFragments full_manifest_fragments current_project_state_dir
      step_data.target_fragment_ids).1 with _ | targets
    · simp
    · simp
  · intro ctx hctx fid _ hnone
    simp only [assemble_expert_context] at hctx
    rcases ht : (assembleTargetFragments full_manifest_fragments current_project_state_dir
      step_data.target_fragment_ids).1 with _ | targets
    · rw [ht] at hctx; simp at hctx
    · rw [ht] at hctx
      simp only [Option.some_inj] at hctx
      subst hctx
      constructor
      · intro hmem
        obtain ⟨info, hinfo⟩ := (assembleContextDefinitions_mem full_manifest_fragments
          step_data.context_fragment_ids fid).1 hmem
        rw [hnone] at hinfo
        cases hinfo
      · intro hmem
        obtain ⟨info, hinfo⟩ := (assembleContextDefinitions_mem full_manifest_fragments
          step_data.context_fragment_ids fid).2 hmem
        rw [hnone] at hinfo
        cases hinfo

/-- Witness for C5 (amended): a step whose single *target* id `"T"` is
missing from the (empty) manifest makes assembly return no context, by the
amended theorem's characterisation. -/
theorem expert_context_hard_failure_amended_witness :
    (assemble_expert_context ⟨["T"], [], ""⟩ [] [] none).1 = none :=
  (expert_context_hard_failure_amended ⟨["T"], [], ""⟩ [] [] none).1.mpr
    ⟨"T", by decide, by decide⟩

/-! ## Lemmas about the selector -/

theorem filterByThreshold_mono (idMap : List String) {t1 t2 : Rat} (h12 : t1 ≤ t2)
    (l : List (Nat × Rat)) :
    (filterByThreshold idMap (some t1) l).Sublist (filterByThreshold idMap (some t2) l) := by
  induction l with
  | nil => simp [filterByThreshold]
  | cons hd rest ih =>
    obtain ⟨i, d⟩ := hd
    rcases hget : idMap.get? i with _ | fid
    · simpa only [filterByThreshold, hget] using ih
    · simp only [filterByThreshold, hget]
      by_cases hid : strTruthy fid = true
      · rw [if_pos hid, if_pos hid]
        by_cases h1 : t1 < d
        · rw [if_pos h1]
          by_cases h2 : t2 < d
          · rw [if_pos h2]; exact ih
          · rw [if_neg h2]; exact ih.cons _
        · rw [if_neg h1]
          have h2 : ¬t2 < d := not_lt.mpr (le_trans (not_lt.mp h1) h12)
          rw [if_neg h2]
          exact ih.cons₂ _
      · rw [if_neg hid, if_neg hid]
        exact ih

theorem filterByThreshold_scores_sublist (idMap : List String) (thr : Option Rat)
    (l : List (Nat × Rat)) :
    ((filterByThreshold idMap thr l).map Prod.snd).Sublist (l.map Prod.snd) := by
  induction l with
  | nil => simp [filterByThreshold]
  | cons hd rest ih =>
    obtain ⟨i, d⟩ := hd
    rcases hget : idMap.get? i with _ | fid
    · simp only [filterByThreshold, hget, List.map_cons]
      exact ih.trans (List.sublist_cons_self _ _)
    · by_cases hid : strTruthy fid = true
      · rcases thr with _ | t
        · simp only [filterByThreshold, hget, hid, if_true, List.map_cons]
          exact ih.cons₂ _
        · by_cases h1 : t < d
          · simp only [filterByThreshold, hget, hid, if_true, if_pos h1, List.map_cons]
            exact ih.trans (List.sublist_cons_self _ _)
          · simp only [filterByThreshold, hget, hid, if_true, if_neg h1, List.map_cons]
            exact ih.cons₂ _
      · have hid' : strTruthy fid = false := by
          cases hb : strTruthy fid
          · rfl
          · exact absurd hb hid
        simp only [filterByThreshold, hget, hid', Bool.false_eq_true, if_false, List.map_cons]
        exact ih.trans (List.sublist_cons_self _ _)

theorem filterByThreshold_sound (idMap : List String) (thr : Option Rat)
    (l : List (Nat × Rat)) {pr : String × Rat}
    (h : pr ∈ filterByThreshold idMap thr l) :
    ∃ i, (i, pr.2) ∈ l ∧ idMap.get? i = some pr.1 := by
  induction l with
  | nil => simp [filterByThreshold] at h
  | cons hd rest ih =>
    obtain ⟨i, d⟩ := hd
    rcases hget : idMap.get? i with _ | fid
    · rw [show filterByThreshold idMap thr ((i, d) :: rest) =
          filterByThreshold idMap thr rest by
        simp only [filterByThreshold, hget]] at h
      obtain ⟨i', hmem, hidm⟩ := ih h
      exact ⟨i', List.mem_cons_of_mem _ hmem, hidm⟩
    · have hkeep : pr = (fid, d) ∨ pr ∈ filterByThreshold idMap thr rest := by
        by_cases hid : strTruthy fid = true
        · rcases thr with _ | t
          · simp only [filterByThreshold, hget, hid, if_true] at h
            exact List.mem_cons.mp h
          · by_cases h1 : t < d
            · simp only [filterByThreshold, hget, hid, if_true, if_pos h1] at h
              exact Or.inr h
            · simp only [filterByThreshold, hget, hid, if_true, if_neg h1] at h
              exact List.mem_cons.mp h
        · have hid' : strTruthy fid = false := by
            cases hb : strTruthy fid
            · rfl
            · exact absurd hb hid
          simp only [filterByThreshold, hget, hid', Bool.false_eq_true, if_false] at h
          exact Or.inr h
      rcases hkeep with rfl | hmem
      · exact ⟨i, List.mem_cons_self _ _, hget⟩
      · obtain ⟨i', hmem', hidm⟩ := ih hmem
        exact ⟨i', List.mem_cons_of_mem _ hmem', hidm⟩

theorem faissSearch_sorted (vecs : List (List Rat)) (q : List Rat) (k : Nat) :
    List.Pairwise distLE (faissSearch vecs q k) := by
  have hs := List.sorted_insertionSort distLE
    ((vecs.enum).map (fun iv => (iv.1, sqDist q iv.2)))
  exact List.Pairwise.sublist (List.take_sublist k _) hs

theorem faissSearch_mem (vecs : List (List Rat)) (q : List Rat) (k : Nat)
    {i : Nat} {d : Rat} (h : (i, d) ∈ faissSearch vecs q k) :
    ∃ v, vecs.get? i = some v ∧ d = sqDist q v := by
  have h1 : (i, d) ∈ (vecs.enum).map (fun iv => (iv.1, sqDist q iv.2)) :=
    ((List.perm_insertionSort distLE _).mem_iff).mp ((List.take_sublist k _).subset h)
  obtain ⟨⟨i', v⟩, hmem, heq⟩ := List.mem_map.mp h1
  injection heq with e1 e2
  subst e1
  obtain ⟨hlt, hv⟩ := List.mem_enum hmem
  refine ⟨v, ?_, e2.symm⟩
  rw [List.get?_eq_getElem?, List.getElem?_eq_getElem hlt, hv]

theorem find_relevant_fragments_main {index : List (String × List Rat)} {q : List Rat}
    {top_k : Int} {thr : Option Rat}
    (hlen : index.length ≠ 0) (hk : 0 < min top_k (index.length : Int)) :
    find_relevant_fragments index (some q) top_k thr =
      ⟨(filterByThreshold (index.map Prod.fst) thr
          (faissSearch (index.map Prod.snd) q
            (min top_k (index.length : Int)).toNat)).map Prod.fst,
        (filterByThreshold (index.map Prod.fst) thr
          (faissSearch (index.map Prod.snd) q
            (min top_k (index.length : Int)).toNat)).map Prod.snd, none⟩ := by
  simp [find_relevant_fragments, hlen, hk.ne', not_lt.mpr hk.le]

/-! ## The claims about the selector -/

/-- C2 fails on the code: with an empty index, and likewise with
`top_k = 0`, the selector returns empty id and score lists but a non-null
error message — an error *is* reported. -/
theorem selector_empty_result_counterexample :
    ((find_relevant_fragments [] (some [1]) 5 none).relevant_ids = [] ∧
      (find_relevant_fragments [] (some [1]) 5 none).error =
        some "Index FAISS vide, impossible de rechercher.") ∧
    ((find_relevant_fragments [("f1", [1])] (some [1]) 0 none).relevant_ids = [] ∧
      (find_relevant_fragments [("f1", [1])] (some [1]) 0 none).error =
        some "Aucun voisin à rechercher (k=0).") := by
  exact ⟨⟨by decide, by decide⟩, by decide, by decide⟩

/-- C2 (amended): whenever `top_k <= 0` or the built index holds zero
vectors, `find_relevant_fragments` returns an empty id list and an empty
score list, accompanied by a non-null explanatory message in the error slot
(it does not report a silent empty success). -/
theorem selector_empty_result_amended (index : List (String × List Rat))
    (query_embedding : Option (List Rat)) (top_k : Int) (similarity_threshold : Option Rat)
    (h : top_k ≤ 0 ∨ index.length = 0) :
    (find_relevant_fragments index query_embedding top_k
      similarity_threshold).relevant_ids = [] ∧
    (find_relevant_fragments index query_embedding top_k
      similarity_threshold).similarity_scores = [] ∧
    (find_relevant_fragments index query_embedding top_k
      similarity_threshold).error.isSome = true := by
  rcases query_embedding with _ | q
  · exact ⟨rfl, rfl, rfl⟩
  · by_cases hlen : index.length = 0
    · simp [find_relevant_fragments, hlen]
    · have hk : top_k ≤ 0 := by
        rcases h with h | h
        · exact h
        · exact absurd h hlen
      have hmin : min top_k (index.length : Int) ≤ 0 :=
        le_trans (min_le_left _ _) hk
      by_cases hk0 : min top_k (index.length : Int) = 0
      · simp [find_relevant_fragments, hlen, hk0]
      · have hneg : min top_k (index.length : Int) < 0 := lt_of_le_of_ne hmin hk0
        simp [find_relevant_fragments, hlen, hk0, hneg]

/-- Witness for C2 (amended) at `top_k = 0` on a one-vector index. -/
theorem selector_empty_result_amended_witness :
    (find_relevant_fragments [("f1", [1])] (some [1]) 0 none).relevant_ids = [] ∧
    (find_relevant_fragments [("f1", [1])] (some [1]) 0 none).similarity_scores = [] ∧
    (find_relevant_fragments [("f1", [1])] (some [1]) 0 none).error.isSome = true :=
  selector_empty_result_amended [("f1", [1])] (some [1]) 0 none (Or.inl (by decide))

/-- C8: with the same index and query embedding and thresholds `t1 < t2`,
the ids returned under `t2` are a superset of those returned under `t1`
(indeed the `t1` (id, score) rows form a sublist of the `t2` rows); under
each threshold the id and score lists have equal length, the scores are in
ascending order, and every returned (id, score) row pairs a fragment id of
the index with the true squared-L2 distance of that fragment's vector from
the query. -/
theorem selector_threshold_monotone (index : List (String × List Rat)) (q : List Rat)
    (top_k : Int) (t1 t2 : Rat) (h12 : t1 < t2) :
    (∀ id ∈ (find_relevant_fragments index (some q) top_k (some t1)).relevant_ids,
      id ∈ (find_relevant_fragments index (some q) top_k (some t2)).relevant_ids) ∧
    (find_relevant_fragments index (some q) top_k (some t1)).relevant_ids.length =
      (find_relevant_fragments index (some q) top_k (some t1)).similarity_scores.length ∧
    (find_relevant_fragments index (some q) top_k (some t2)).relevant_ids.length =
      (find_relevant_fragments index (some q) top_k (some t2)).similarity_scores.length ∧
    List.Pairwise (· ≤ ·)
      (find_relevant_fragments index (some q) top_k (some t1)).similarity_scores ∧
    List.Pairwise (· ≤ ·)
      (find_relevant_fragments index (some q) top_k (some t2)).similarity_scores ∧
    ((find_relevant_fragments index (some q) top_k (some t1)).relevant_ids.zip
      (find_relevant_fragments index (some q) top_k (some t1)).similarity_scores).Sublist
      ((find_relevant_fragments index (some q) top_k (some t2)).relevant_ids.zip
        (find_relevant_fragments index (some q) top_k (some t2)).similarity_scores) ∧
    (∀ pr ∈ (find_relevant_fragments index (some q) top_k (some t2)).relevant_ids.zip
        (find_relevant_fragments index (some q) top_k (some t2)).similarity_scores,
      ∃ v, (pr.1, v) ∈ index ∧ pr.2 = sqDist q v) := by
  by_cases hlen : index.length = 0
  · have e1 : find_relevant_fragments index (some q) top_k (some t1) =
        ⟨[], [], some "Index FAISS vide, impossible de rechercher."⟩ := by
      simp [find_relevant_fragments, hlen]
    have e2 : find_relevant_fragments index (some q) top_k (some t2) =
        ⟨[], [], some "Index FAISS vide, impossible de rechercher."⟩ := by
      simp [find_relevant_fragments, hlen]
    rw [e1, e2]
    simp
  · by_cases hk : 0 < min top_k (index.length : Int)
    · rw [find_relevant_fragments_main hlen hk, find_relevant_fragments_main hlen hk]
      have hsorted := faissSearch_sorted (index.map Prod.snd) q
        (min top_k (index.length : Int)).toNat
      have hmono := filterByThreshold_mono (index.map Prod.fst) h12.le
        (faissSearch (index.map Prod.snd) q (min top_k (index.length : Int)).toNat)
      refine ⟨?_, by simp, by simp, ?_, ?_, ?_, ?_⟩
      · intro id hid
        simp only [List.mem_map] at hid ⊢
        obtain ⟨pr, hpr, rfl⟩ := hid
        exact ⟨pr, hmono.subset hpr, rfl⟩
      · have hsc := (filterByThreshold_scores_sublist (index.map Prod.fst) (some t1)
          (faissSearch (index.map Prod.snd) q (min top_k (index.length : Int)).toNat))
        have : List.Pairwise (· ≤ ·) ((faissSearch (index.map Prod.snd) q
            (min top_k (index.length : Int)).toNat).map Prod.snd) :=
          List.pairwise_map.mpr (hsorted.imp (fun h => h))
        exact List.Pairwise.sublist hsc this
      · have hsc := (filterByThreshold_scores_sublist (index.map Prod.fst) (some t2)
          (faissSearch (index.map Prod.snd) q (min top_k (index.length : Int)).toNat))
        have : List.Pairwise (· ≤ ·) ((faissSearch (index.map Prod.snd) q
            (min top_k (index.length : Int)).toNat).map Prod.snd) :=
          List.pairwise_map.mpr (hsorted.imp (fun h => h))
        exact List.Pairwise.sublist hsc this
      · rw [List.zip_map', List.zip_map']
        simpa using hmono.map (fun a => (a.1, a.2))
      · intro pr hpr
        rw [List.zip_map'] at hpr
        simp only [List.mem_map] at hpr
        obtain ⟨pr', hpr', rfl⟩ := hpr
        show ∃ v, (pr'.1, v) ∈ index ∧ pr'.2 = sqDist q v
        obtain ⟨i, hres, hid⟩ := filterByThreshold_sound (index.map Prod.fst) (some t2)
          (faissSearch (index.map Prod.snd) q (min top_k (index.length : Int)).toNat) hpr'
        obtain ⟨v, hv, hd⟩ := faissSearch_mem (index.map Prod.snd) q
          (min top_k (index.length : Int)).toNat hres
        rw [List.get?_map] at hid hv
        rcases hidx : index.get? i with _ | entry
        · rw [hidx] at hid; cases hid
        · rw [hidx] at hid hv
          simp only [Option.map_some', Option.some.injEq] at hid hv
          refine ⟨v, ?_, hd⟩
          have hentry : entry = (pr'.1, v) := by
            cases entry
            simp only [Prod.mk.injEq]
            exact ⟨hid, hv⟩
          rw [← hentry]
          exact List.get?_mem hidx
    · have hmin : min top_k (index.length : Int) ≤ 0 := not_lt.mp hk
      by_cases hk0 : min top_k (index.length : Int) = 0
      · have e1 : find_relevant_fragments index (some q) top_k (some t1) =
            ⟨[], [], some "Aucun voisin à rechercher (k=0)."⟩ := by
          simp [find_relevant_fragments, hlen, hk0]
        have e2 : find_relevant_fragments index (some q) top_k (some t2) =
            ⟨[], [], some "Aucun voisin à rechercher (k=0)."⟩ := by
          simp [find_relevant_fragments, hlen, hk0]
        rw [e1, e2]
        simp
      · have hneg : min top_k (index.length : Int) < 0 := lt_of_le_of_ne hmin hk0
        have e1 : find_relevant_fragments index (some q) top_k (some t1) =
            ⟨[], [], some "Erreur de recherche FAISS."⟩ := by
          simp [find_relevant_fragments, hlen, hk0, hneg]
        have e2 : find_relevant_fragments index (some q) top_k (some t2) =
            ⟨[], [], some "Erreur de recherche FAISS."⟩ := by
          simp [find_relevant_fragments, hlen, hk0, hneg]
        rw [e1, e2]
        simp

/-- Witness for C8 at concrete thresholds 1 < 2 on a two-vector index, the
theorem applied with every hypothesis discharged by computation. -/
theorem selector_threshold_monotone_witness :
    (1 : Rat) < 2 ∧
    (∀ id ∈ (find_relevant_fragments [("f1", [0]), ("f2", [3])] (some [0]) 2
        (some 1)).relevant_ids,
      id ∈ (find_relevant_fragments [("f1", [0]), ("f2", [3])] (some [0]) 2
        (some 2)).relevant_ids) :=
  ⟨by decide, (selector_threshold_monotone [("f1", [0]), ("f2", [3])] [0] 2 1 2
    (by decide)).1⟩

/-! ## Lemmas about the incremental embedding store -/

theorem stripIsEmpty_fallback (a b : String) : stripIsEmpty (a ++ ": " ++ b) = false := by
  simp only [stripIsEmpty, String.data_append, List.all_append]
  have hcolon : (": ".data.all Char.isWhitespace) = false := by decide
  simp [hcolon]

theorem stripIsEmpty_ite_fallback (ft fb : String) (hfb : stripIsEmpty fb = false) :
    stripIsEmpty (if stripIsEmpty ft = true then fb else ft) = false := by
  by_cases h : stripIsEmpty ft = true
  · rw [if_pos h]
    exact hfb
  · rw [if_neg h]
    simpa using h

theorem _get_text_for_fragment_embedding_not_blank (fragment_info : FragmentInfo)
    (fragment_id_for_log : String) (maxTextLength : Nat) :
    stripIsEmpty (_get_text_for_fragment_embedding fragment_info fragment_id_for_log
      maxTextLength) = false := by
  unfold _get_text_for_fragment_embedding
  exact stripIsEmpty_ite_fallback _ _ (stripIsEmpty_fallback _ _)

theorem update_fragment_embeddings_async_written
    {current_fragments : List (String × FragmentInfo)}
    {old_embeddings_data : List (String × EmbRecord)}
    {embedder : String → Option (List Rat)} {maxTextLength : Nat}
    {s : List (String × EmbRecord)}
    (hw : (update_fragment_embeddings_async current_fragments old_embeddings_data embedder
      maxTextLength).2 = StoreOutcome.written s) :
    s = current_fragments.filterMap (reusedRecord old_embeddings_data) ++
      current_fragments.filterMap
        (regeneratedRecord old_embeddings_data embedder maxTextLength) := by
  cases hne : current_fragments.isEmpty with
  | true => simp [update_fragment_embeddings_async, hne] at hw
  | false =>
    simp only [update_fragment_embeddings_async, hne, Bool.false_eq_true, if_false] at hw
    by_cases hupd : (current_fragments.filterMap (reusedRecord old_embeddings_data) ++
        current_fragments.filterMap
          (regeneratedRecord old_embeddings_data embedder maxTextLength)).isEmpty
    · rw [if_pos hupd] at hw
      cases hw
    · rw [if_neg hupd] at hw
      injection hw with h
      exact h.symm

theorem reusedRecord_some_fst {old_embeddings_data : List (String × EmbRecord)}
    {fi : String × FragmentInfo} {out : String × EmbRecord}
    (h : reusedRecord old_embeddings_data fi = some out) :
    out.1 = fi.1 := by
  rcases hre : reusableEntry old_embeddings_data fi.1 fi.2.code_digest with _ | e
  · rw [reusedRecord, hre] at h
    cases h
  · rw [reusedRecord, hre] at h
    simp only [Option.map_some', Option.some.injEq] at h
    rw [← h]

theorem regeneratedRecord_some_fst {old_embeddings_data : List (String × EmbRecord)}
    {embedder : String → Option (List Rat)} {maxTextLength : Nat}
    {fi : String × FragmentInfo} {out : String × EmbRecord}
    (h : regeneratedRecord old_embeddings_data embedder maxTextLength fi = some out) :
    out.1 = fi.1 := by
  rw [regeneratedRecord] at h
  split at h
  · cases h
  · split at h
    · cases h
    · split at h
      next v heq =>
        split at h
        · cases h
        · injection h with h0
          rw [← h0]
      next heq => cases h

/-! ## The claim about the Incremental Embedding Store -/

/-- C4: when the update writes a store `s`: (1) every fragment of the
inventory whose prior record carries the same digest and a present vector
has that record copied forward into `s` unchanged; (2) every fragment with
no reusable prior record (new, digest-mismatched, or vector missing) whose
embedding call returns a non-empty vector is stored in `s` with that vector
tagged with the fragment's *current* digest; (3) every record of `s` belongs
to a fragment id of the current inventory — orphaned records are dropped.
(A fragment whose embedding call fails is omitted for this run, which the
spec handles separately from this claim.) -/
theorem incremental_embedding_update_spec
    (current_fragments : List (String × FragmentInfo))
    (old_embeddings_data : List (String × EmbRecord))
    (embedder : String → Option (List Rat)) (maxTextLength : Nat)
    (s : List (String × EmbRecord))
    (hw : (update_fragment_embeddings_async current_fragments old_embeddings_data embedder
      maxTextLength).2 = StoreOutcome.written s) :
    (∀ frag_id info e, (frag_id, info) ∈ current_fragments →
      lookupA old_embeddings_data frag_id = some e →
      e.code_digest = info.code_digest → e.embedding ≠ [] → (frag_id, e) ∈ s) ∧
    (∀ frag_id info v, (frag_id, info) ∈ current_fragments →
      reusableEntry old_embeddings_data frag_id info.code_digest = none →
      embedder (_get_text_for_fragment_embedding info frag_id maxTextLength) = some v →
      v ≠ [] → (frag_id, EmbRecord.mk v info.code_digest) ∈ s) ∧
    (∀ frag_id e, (frag_id, e) ∈ s →
      ∃ info, (frag_id, info) ∈ current_fragments) := by
  have hs := update_fragment_embeddings_async_written hw
  refine ⟨?_, ?_, ?_⟩
  · intro frag_id info e hmem hlook hdig hne
    rw [hs]
    apply List.mem_append_left
    apply List.mem_filterMap.mpr
    refine ⟨(frag_id, info), hmem, ?_⟩
    have hre : reusableEntry old_embeddings_data frag_id info.code_digest = some e := by
      simp only [reusableEntry, hlook]
      rw [if_pos ⟨hdig, fun hc => hne (List.isEmpty_iff.mp hc)⟩]
    simp [reusedRecord, hre]
  · intro frag_id info v hmem hre hemb hvne
    rw [hs]
    apply List.mem_append_right
    apply List.mem_filterMap.mpr
    refine ⟨(frag_id, info), hmem, ?_⟩
    have hblank := _get_text_for_fragment_embedding_not_blank info frag_id maxTextLength
    have hvempty : v.isEmpty = false := by
      cases v with
      | nil => exact absurd rfl hvne
      | cons a l => rfl
    simp [regeneratedRecord, hre, hblank, hemb, hvempty]
  · intro frag_id e hmem
    rw [hs] at hmem
    rcases List.mem_append.mp hmem with hmem | hmem
    · obtain ⟨a, ha, hfa⟩ := List.mem_filterMap.mp hmem
      have h1 := reusedRecord_some_fst hfa
      refine ⟨a.2, ?_⟩
      have : (frag_id, e).1 = a.1 := h1
      simp only at this
      rw [this]
      exact ha
    · obtain ⟨a, ha, hfa⟩ := List.mem_filterMap.mp hmem
      have h1 := regeneratedRecord_some_fst hfa
      refine ⟨a.2, ?_⟩
      have : (frag_id, e).1 = a.1 := h1
      simp only at this
      rw [this]
      exact ha

/-- Witness for C4, the spec's example scenario: fragments A, B, C with
digests d1, d2, d3; the prior store has A reusable, B stale (digest
`d2_old`), and no C.  The written store keeps A unchanged and stores B and C
with freshly generated vectors tagged d2 and d3. -/
theorem incremental_embedding_update_spec_witness :
    (("A", EmbRecord.mk [1] (some "d1")) ∈
      [("A", EmbRecord.mk [1] (some "d1")), ("B", EmbRecord.mk [7] (some "d2")),
        ("C", EmbRecord.mk [7] (some "d3"))]) ∧
    (("B", EmbRecord.mk [7] (some "d2")) ∈
      [("A", EmbRecord.mk [1] (some "d1")), ("B", EmbRecord.mk [7] (some "d2")),
        ("C", EmbRecord.mk [7] (some "d3"))]) ∧
    (("C", EmbRecord.mk [7] (some "d3")) ∈
      [("A", EmbRecord.mk [1] (some "d1")), ("B", EmbRecord.mk [7] (some "d2")),
        ("C", EmbRecord.mk [7] (some "d3"))]) := by
  have happ := incremental_embedding_update_spec
    [("A", { code_digest := some "d1" }), ("B", { code_digest := some "d2" }),
      ("C", { code_digest := some "d3" })]
    [("A", EmbRecord.mk [1] (some "d1")), ("B", EmbRecord.mk [2] (some "d2_old"))]
    (fun _ => some [7]) 512
    [("A", EmbRecord.mk [1] (some "d1")), ("B", EmbRecord.mk [7] (some "d2")),
      ("C", EmbRecord.mk [7] (some "d3"))]
    (by decide)
  refine ⟨?_, ?_, ?_⟩
  · exact happ.1 "A" { code_digest := some "d1" } (EmbRecord.mk [1] (some "d1"))
      (by decide) (by decide) (by decide) (by decide)
  · exact happ.2.1 "B" { code_digest := some "d2" } [7] (by decide) (by decide)
      (by decide) (by decide)
  · exact happ.2.1 "C" { code_digest := some "d3" } [7] (by decide) (by decide)
      (by decide) (by decide)

end CodeExpert
